import Mathlib

/-!
Verification development for the `eir` image-processing pipeline
(`src/eir/processor.py`).

Python strings are shallowly embedded as `List Char` (`Str`); Python's
`str` methods used by the code (`lower`, `split`, `rsplit`, `replace`,
`strip`, `in`, lexicographic `<`) are given as executable functions on
`Str`.  Only the ASCII fragment of Unicode is modelled (all directory
names, extensions and dates handled by the pipeline are ASCII).
-/

namespace Eir

/-- Python strings, embedded as lists of characters. -/
abbrev Str := List Char

/-! ### Character facts (ASCII `str.lower`) -/

/-- Evaluation of `Char.ofNat` below the surrogate range. -/
theorem char_toNat_ofNat (n : Nat) (h : n < 55296) : (Char.ofNat n).toNat = n := by
  unfold Char.ofNat
  rw [dif_pos (Or.inl h)]
  rfl

/-- Unfolding of core `Char.toLower` in terms of `toNat`. -/
theorem toLower_def (c : Char) :
    Char.toLower c =
      if 65 ≤ c.toNat ∧ c.toNat ≤ 90 then Char.ofNat (c.toNat + 32) else c := rfl

/-- `Char.isUpper` in terms of `toNat`. -/
theorem isUpper_iff (c : Char) : c.isUpper = true ↔ 65 ≤ c.toNat ∧ c.toNat ≤ 90 := by
  simp [Char.isUpper, Char.le_def, UInt32.le_def, BitVec.le_def]
  exact Iff.rfl

/-- Lower-casing never produces an upper-case ASCII letter. -/
theorem isUpper_toLower (c : Char) : (Char.toLower c).isUpper = false := by
  rw [toLower_def]
  split
  · next h =>
    obtain ⟨h1, h2⟩ := h
    rw [Bool.eq_false_iff]
    intro hu
    have := (isUpper_iff _).mp hu
    rw [char_toNat_ofNat (c.toNat + 32) (by omega)] at this
    omega
  · next h =>
    rw [Bool.eq_false_iff]
    intro hu
    exact h ((isUpper_iff c).mp hu)

/-- Characters are determined by their code points. -/
theorem char_toNat_inj (c d : Char) (h : c.toNat = d.toNat) : c = d := by
  apply Char.eq_of_val_eq
  apply UInt32.ext
  exact h

/-- Lower-casing a character yields a coded point below 65 only if it was
that character already (used for `'_'`, `'.'`, `'/'`, digits). -/
theorem toLower_eq_iff_of_lt (c t : Char) (ht : t.toNat < 65) :
    Char.toLower c = t ↔ c = t := by
  rw [toLower_def]
  split
  · next hcond =>
    obtain ⟨h1, h2⟩ := hcond
    constructor
    · intro he
      have hn : (Char.ofNat (c.toNat + 32)).toNat = t.toNat := by rw [he]
      rw [char_toNat_ofNat (c.toNat + 32) (by omega)] at hn
      omega
    · intro he
      subst he
      omega
  · next h => exact Iff.rfl

/-- Characters with code point below 65 (digits, punctuation) are fixed by
`toLower`. -/
theorem toLower_of_lt (c : Char) (h : c.toNat < 65) : Char.toLower c = c := by
  rw [toLower_def, if_neg]
  omega

/-! ### Python string primitives -/

/-- ASCII decimal digit test (Python's `\d` on the ASCII fragment). -/
def isDigitB (c : Char) : Bool := 48 ≤ c.toNat && c.toNat ≤ 57

/-- Python whitespace class `\s` (ASCII fragment). -/
def isPyWs (c : Char) : Bool :=
  c = ' ' || c = '\t' || c = '\n' || c = '\r' || c = '\x0b' || c = '\x0c'

/-- Numeric value of a digit character. -/
def digitVal (c : Char) : Nat := c.toNat - 48

/-- Python `int(s)` on a string of digits. -/
def strVal (s : Str) : Nat := s.foldl (fun a c => 10 * a + digitVal c) 0

/-- Python `s.lower()` (ASCII fragment). -/
def pyLower (s : Str) : Str := s.map Char.toLower

/-- Does `s` start with `p`?  (Embeds Python `s.startswith(p)` / a regex
literal prefix.) -/
def leadsWith : Str → Str → Bool
  | [], _ => true
  | _ :: _, [] => false
  | p :: ps, c :: cs => p = c && leadsWith ps cs

/-- Python substring membership `sub in s`. -/
def subIn (sub : Str) : Str → Bool
  | [] => sub.isEmpty
  | c :: cs => leadsWith sub (c :: cs) || subIn sub cs

/-- Python lexicographic `s < t` on strings (code-point order). -/
def strLtB : Str → Str → Bool
  | [], [] => false
  | [], _ :: _ => true
  | _ :: _, [] => false
  | a :: as, b :: bs =>
    if a.toNat < b.toNat then true
    else if a = b then strLtB as bs
    else false

/-- Python `s.split(sep)[0]`: the prefix before the first occurrence of
`sep` (the whole string when `sep` does not occur). -/
def firstSeg (sep : Char) (s : Str) : Str := s.takeWhile (fun c => c ≠ sep)

/-- Python `s.split("_")[-1]`: the suffix after the last underscore (the
whole string when no underscore occurs). -/
def lastSeg (s : Str) : Str := (s.reverse.takeWhile (fun c => c ≠ '_')).reverse

/-- Python `s.rsplit(".", 1)[0]`: everything before the last dot (the whole
string when no dot occurs).  This is how the cleanup code computes file
stems. -/
def stemOf (s : Str) : Str :=
  if '.' ∈ s then ((s.reverse.dropWhile (fun c => c ≠ '.')).drop 1).reverse else s

/-- Python `os.path.basename` (POSIX): the part after the last `/`. -/
def baseNamePosix (s : Str) : Str := (s.reverse.takeWhile (fun c => c ≠ '/')).reverse

/-- Python `os.path.splitext` on a basename: splits off the extension at
the last dot, provided some non-dot character occurs strictly before that
dot (so `".bashrc"` has no extension). -/
def splitExt (s : Str) : Str × Str :=
  let revExt := s.reverse.takeWhile (fun c => c ≠ '.')
  if revExt.length = s.length then (s, [])
  else
    let stem := (s.reverse.drop (revExt.length + 1)).reverse
    if stem.all (fun c => c = '.') then (s, [])
    else (stem, '.' :: revExt.reverse)

/-- Worker for Python `s.replace(sub, "")`: scan left to right, deleting
non-overlapping occurrences of `sub`.  The fuel argument (instantiated
with `s.length`, an upper bound on the number of scan steps since each
step consumes at least one character of a nonempty `sub`) keeps the
recursion structural, so the kernel can evaluate it. -/
def removeAllFuel (sub : Str) : Nat → Str → Str
  | _, [] => []
  | 0, s => s
  | f + 1, c :: cs =>
    if leadsWith sub (c :: cs) then removeAllFuel sub f (cs.drop (sub.length - 1))
    else c :: removeAllFuel sub f cs

/-- Python `s.replace(sub, "")` (left-to-right, non-overlapping); the
identity for an empty `sub`, as in Python
(`"abc".replace("", "") == "abc"`). -/
def removeAll (sub : Str) (s : Str) : Str :=
  if sub = [] then s else removeAllFuel sub s.length s

/-- Python `s.strip()` (ASCII whitespace fragment). -/
def stripWs (s : Str) : Str := ((s.dropWhile isPyWs).reverse.dropWhile isPyWs).reverse

/-- Decimal representation of a natural number (Python `str(n)` /
`"%d" % n`). -/
def digitCh (d : Nat) : Char := Char.ofNat (48 + d)

/-- Little-endian base-10 digits with explicit fuel (structural recursion,
so the kernel can evaluate it; with fuel ≥ n it agrees with
`Nat.digits 10 n`). -/
def natDigitsRev : Nat → Nat → List Nat
  | _, 0 => []
  | 0, _ + 1 => []
  | f + 1, n + 1 => (n + 1) % 10 :: natDigitsRev f ((n + 1) / 10)

theorem natDigitsRev_eq (fuel : Nat) : ∀ n : Nat, n ≤ fuel →
    natDigitsRev fuel n = Nat.digits 10 n := by
  induction fuel with
  | zero =>
    intro n hn
    have : n = 0 := by omega
    subst this
    simp [natDigitsRev]
  | succ f ih =>
    intro n hn
    cases n with
    | zero => simp [natDigitsRev]
    | succ m =>
      show (m + 1) % 10 :: natDigitsRev f ((m + 1) / 10) = _
      rw [Nat.digits_def' (by norm_num) (Nat.succ_pos m)]
      congr 1
      apply ih
      have := Nat.div_lt_self (Nat.succ_pos m) (by norm_num : 1 < 10)
      omega

/-- Decimal digit string of `n`, most significant digit first. -/
def natRepr (n : Nat) : Str :=
  if n = 0 then ['0'] else ((natDigitsRev n n).map digitCh).reverse

/-- Python `f"{n:03d}"`: decimal representation left-padded with zeros to
width 3. -/
def pad3 (n : Nat) : Str :=
  let s := natRepr n
  List.replicate (3 - s.length) '0' ++ s

/-! ### Calendar arithmetic (CPython `datetime` validity) -/

/-- Gregorian leap-year rule, as used by `datetime`. -/
def isLeapYear (y : Nat) : Bool := y % 4 = 0 && (y % 100 ≠ 0 || y % 400 = 0)

/-- Number of days of month `m` in year `y`. -/
def daysInMonth (y m : Nat) : Nat :=
  if m = 2 then (if isLeapYear y then 29 else 28)
  else if m = 4 ∨ m = 6 ∨ m = 9 ∨ m = 11 then 30
  else 31

/-- CPython `datetime.strptime(s, "%Y%m%d")` succeeds on an 8-digit string
iff the fixed-position fields form a valid date.  (`%Y` compiles to
`\d{4}`; `%m`/`%d` compile to 1-2 digit alternations, and on an 8-digit
input only the 2+2 split can consume everything, so month and day sit at
fixed positions; `datetime` then requires year ≥ 1, a real month, and a
day within the month.) -/
def validYmd8 (s : Str) : Bool :=
  s.length = 8 && s.all isDigitB &&
    (let y := strVal (s.take 4)
     let m := strVal ((s.drop 4).take 2)
     let d := strVal (s.drop 6)
     1 ≤ y && 1 ≤ m && m ≤ 12 && 1 ≤ d && d ≤ daysInMonth y m)

/-- One strptime numeric field: the maximal digit run at the front. -/
def digitRun (s : Str) : Str × Str := (s.takeWhile isDigitB, s.dropWhile isDigitB)

/-- CPython `datetime.strptime(s, "%Y:%m:%d %H:%M:%S")` succeeds iff this
returns `true`.  `%Y` is exactly four digits; `%m`, `%d`, `%H`, `%M`, `%S`
each accept one **or two** digits (the compiled regex alternations); the
space in the format compiles to `\s+`, i.e. one or more whitespace
characters; the whole input must be consumed.  On top of the regex,
`datetime` requires year ≥ 1, month 1-12, day within the month, hour ≤ 23,
minute ≤ 59 and second ≤ 59 — any violation raises `ValueError`, which the
caller treats identically to a regex mismatch. -/
def strptimeYmdHms (s : Str) : Bool :=
  let (y, r1) := digitRun s
  match r1 with
  | ':' :: r1b =>
    let (mo, r2) := digitRun r1b
    match r2 with
    | ':' :: r2b =>
      let (d, r3) := digitRun r2b
      let ws := r3.takeWhile isPyWs
      let (h, r4) := digitRun (r3.dropWhile isPyWs)
      match r4 with
      | ':' :: r4b =>
        let (mi, r5) := digitRun r4b
        match r5 with
        | ':' :: r5b =>
          let (sec, r6) := digitRun r5b
          r6.isEmpty &&
            y.length = 4 && 1 ≤ strVal y &&
            1 ≤ mo.length && mo.length ≤ 2 && 1 ≤ strVal mo && strVal mo ≤ 12 &&
            1 ≤ d.length && d.length ≤ 2 && 1 ≤ strVal d &&
            strVal d ≤ daysInMonth (strVal y) (strVal mo) &&
            1 ≤ ws.length &&
            1 ≤ h.length && h.length ≤ 2 && strVal h ≤ 23 &&
            1 ≤ mi.length && mi.length ≤ 2 && strVal mi ≤ 59 &&
            1 ≤ sec.length && sec.length ≤ 2 && strVal sec ≤ 59
        | _ => false
      | _ => false
    | _ => false
  | _ => false

/-! ### Data model of `ImageProcessor` (`src/eir/processor.py`) -/

/-- The four bucket families (`ListType` in the source). -/
inductive ListTy
  | rawImage
  | thumbImage
  | compressedImage
  | compressedVideo
deriving DecidableEq, Repr

/-- One EXIF metadata record as returned by the metadata provider.  A
`none` field models a key absent from the Python dict (`dict.get` default
applies); `some []` models a present-but-empty string. -/
structure Metadata where
  sourceFile : Option Str
  createDate : Option Str
  make : Option Str
  model : Option Str
deriving DecidableEq, Repr

/-- The `"unknown"` sentinel (`EXIF_UNKNOWN`). -/
def unknownStr : Str := "unknown".data

/-- `SUPPORTED_RAW_IMAGE_EXT`: the manufacturer → RAW-extension table, in
its committed (insertion) order. -/
def rawExtTable : List (Str × List Str) :=
  [ ("Adobe".data, ["dng".data])
  , ("Canon".data, ["crw".data, "cr2".data, "cr3".data])
  , ("FujiFilm".data, ["raf".data])
  , ("Leica".data, ["rwl".data])
  , ("Minolta".data, ["mrw".data])
  , ("Nikon".data, ["nef".data, "nrw".data])
  , ("Olympus".data, ["orw".data])
  , ("Panasonic".data, ["raw".data, "rw2".data])
  , ("Pentax".data, ["pef".data])
  , ("Samsung".data, ["srw".data])
  , ("Sony".data, ["arw".data, "sr2".data]) ]

/-- The flattened RAW-extension list (`self._supported_raw_image_ext_list`;
the source builds `list(set(...))`, whose arbitrary order is only ever used
for membership tests and an existential, so the join is an equivalent
embedding). -/
def rawExtList : List Str := (rawExtTable.map Prod.snd).flatten

/-- `SUPPORTED_COMPRESSED_IMAGE_EXT_LIST`. -/
def compressedImageExts : List Str :=
  [ "gif".data, "heic".data, "jpg".data, "jpeg".data, "jng".data
  , "mng".data, "png".data, "psd".data, "tiff".data, "tif".data ]

/-- `SUPPORTED_COMPRESSED_VIDEO_EXT_LIST`. -/
def compressedVideoExts : List Str :=
  [ "3g2".data, "3gp2".data, "crm".data, "m4a".data, "m4b".data
  , "m4p".data, "m4v".data, "mov".data, "mp4".data, "mqv".data, "qt".data ]

/-- The thumbnail configuration `THMB = {"ext": "jpg", "dir": "thmb"}`. -/
def thmbExt : Str := "jpg".data

/-- Directory suffix for thumbnails (`THMB["dir"]`). -/
def thmbDir : Str := "thmb".data

/-- Date normalization inside `_process_metadata` (lines 636-656): a
truthy `createDate` different from `"unknown"` that `strptime` accepts
under `"%Y:%m:%d %H:%M:%S"` is reformatted by deleting every `":"` and
replacing every `" "` with `"-"`; everything else falls back to the
directory-derived date. -/
def normalizeCreateDate (fallback : Str) (cd : Option Str) : Str :=
  match cd with
  | none => fallback
  | some d =>
    if d = [] || d = unknownStr then fallback
    else if strptimeYmdHms d then
      (d.filter (fun c => c ≠ ':')).map (fun c => if c = ' ' then '-' else c)
    else fallback

/-- The classification chain of `_process_metadata` (lines 614-631):
extension-table membership decides the bucket family, with the
thumbnail-promotion special case for `jpg`; it also yields the (possibly
`thmb`-substituted) extension used for the directory key. -/
def classifyExt (fileBase fileExt0 : Str) (filteredList : List Str) : Option (ListTy × Str) :=
  if fileExt0 ∈ rawExtList then some (.rawImage, fileExt0)
  else if fileExt0 ∈ compressedImageExts then
    if fileExt0 = thmbExt then
      if rawExtList.any
          (fun rawExt => (pyLower fileBase ++ '.' :: rawExt) ∈ filteredList.map pyLower)
      then some (.thumbImage, thmbDir)
      else some (.compressedImage, fileExt0)
    else some (.compressedImage, fileExt0)
  else if fileExt0 ∈ compressedVideoExts then some (.compressedVideo, fileExt0)
  else none

/-- Make normalization (lines 657-672): strip spaces from the `Make` tag
(defaulting to the unknown sentinel), and for RAW files with unknown make
infer the manufacturer from the first table entry one of whose extensions
is a substring of the file extension. -/
def normalizeMake (md : Metadata) (listTy : ListTy) (fileExt : Str) : Str :=
  let make0 := (md.make.getD unknownStr).filter (fun c => c ≠ ' ')
  if make0 = unknownStr ∧ listTy = .rawImage then
    ((rawExtTable.find? (fun p => p.2.any (fun e => subIn e fileExt))).map Prod.fst).getD
      unknownStr
  else make0

/-- Model normalization (lines 674-684): strip spaces (defaulting to the
unknown sentinel); if the normalized make occurs inside the model and is
not the unknown sentinel, delete it from the model and strip whitespace. -/
def normalizeModel (md : Metadata) (make1 : Str) : Str :=
  let model0 := (md.model.getD unknownStr).filter (fun c => c ≠ ' ')
  if subIn make1 model0 ∧ make1 ≠ unknownStr then stripWs (removeAll make1 model0)
  else model0

/-- The directory key `"_".join([make, model, ext]).lower()` (lines
686-687). -/
def dirKeyOf (make1 model1 fileExt : Str) : Str :=
  pyLower (List.intercalate ['_'] [make1, model1, fileExt])

/-- `_process_metadata(metadata, filtered_list)` (lines 604-689): classify
one metadata record against the full candidate file list, normalize its
date, make and model, and produce `(list_type, dir_name, metadata)`, or
`None` for unclassifiable records.  `fallback` is the directory-derived
fallback date (`_extract_directory_info()[0]`). -/
def process_metadata (fallback : Str) (md : Metadata) (filteredList : List Str) :
    Option (ListTy × Str × Metadata) :=
  md.sourceFile.bind (fun fileName =>
    (classifyExt (splitExt (baseNamePosix fileName)).1
        (pyLower ((splitExt (baseNamePosix fileName)).2.filter (fun c => c ≠ '.')))
        filteredList).map (fun p =>
      (p.1,
        dirKeyOf (normalizeMake md p.1 p.2)
          (normalizeModel md (normalizeMake md p.1 p.2)) p.2,
        { md with
            createDate := some (normalizeCreateDate fallback md.createDate)
            make := some (normalizeMake md p.1 p.2)
            model := some (normalizeModel md (normalizeMake md p.1 p.2)) })))

/-! ### Directory-name validation (`_validate_image_dir`, lines 536-566) -/

/-- Python's `\w` word-character class (ASCII fragment). -/
def isWordCharB (c : Char) : Bool := c.isAlpha || isDigitB c || c = '_'

/-- The `[\w-]+` tail check of the directory regex. -/
def tailOkB (tail : Str) : Bool :=
  !tail.isEmpty && tail.all (fun c => isWordCharB c || c = '-')

/-- The regex `^(\d{8}(?:-\d{8})?)_[\w-]+$` on a directory base name,
returning the captured date string(s) and the project tail.  `\d{8}` is a
fixed-width group, so the decomposition is positional and needs no
backtracking: characters 0-7 must be digits; a `-` at position 8 commits
to the range form (digits at 9-16, `_` at 17, tail from 18), a `_` at
position 8 to the single form (tail from 9). -/
def parseDirName (s : Str) : Option (Str × Option Str × Str) :=
  if ((s.take 8).length = 8 && (s.take 8).all isDigitB : Bool) then
    if ((s.drop 8).take 1 = ['-'] : Bool) then
      if (((s.drop 9).take 8).length = 8 && ((s.drop 9).take 8).all isDigitB : Bool) then
        if ((s.drop 17).take 1 = ['_'] : Bool) then
          if tailOkB (s.drop 18) then some (s.take 8, some ((s.drop 9).take 8), s.drop 18)
          else none
        else none
      else none
    else if ((s.drop 8).take 1 = ['_'] : Bool) then
      if tailOkB (s.drop 9) then some (s.take 8, none, s.drop 9) else none
    else none
  else none

/-- `_validate_image_dir` on the already-extracted base name: regex match,
`strptime("%Y%m%d")` on the date(s), and for a range the Python string
comparison `start_date > end_date` must fail.  Returns `true` when
validation passes and `false` when the source raises `ValueError`. -/
def validate_image_dir (base : Str) : Bool :=
  match parseDirName base with
  | none => false
  | some (d1, none, _) => validYmd8 d1
  | some (d1, some d2, _) => validYmd8 d1 && validYmd8 d2 && !strLtB d2 d1

/-- `_extract_directory_info` (lines 568-588): first underscore-segment of
the base name is the date part; a `-` inside it marks a date range whose
start date becomes the fallback date. -/
def extract_directory_info (base : Str) : Str × Bool :=
  let datePart := firstSeg '_' base
  if '-' ∈ datePart then (firstSeg '-' datePart, true) else (datePart, false)

/-- The `project_name` property (lines 104-115): everything after the
first underscore of the current directory's base name (`"_".join(parts[1:])`
re-joins with the same separator, so this is the original suffix; empty
when no underscore occurs). -/
def project_name_of (base : Str) : Str :=
  if '_' ∈ base then ((base.dropWhile (fun c => c ≠ '_')).drop 1) else []

/-! ### Renamer (`_process_file_group`, lines 818-850) -/

/-- One filesystem rename scheduled by `_process_file_group`: the record's
source path, the constructed destination name, and the assigned sequence
number. -/
structure RenameOp where
  oldName : Str
  newName : Str
  seq : Nat
deriving DecidableEq, Repr

/-- The f-string
`f"./{directory}/{date_part}_{self.project_name}_{seq_num:03d}.{file_ext}".lower()`.
(The source's `if "-" in date_part and len(date_part) == 15` branches build
the *identical* string in both arms, so a single expression embeds them.) -/
def pyFileName (dir date project : Str) (seq : Nat) (ext : Str) : Str :=
  pyLower ('.' :: '/' :: dir ++ '/' :: date ++ '_' :: project ++ '_' :: pad3 seq ++ '.' :: ext)

/-- The renames issued for one destination directory of a bucket: `ext` is
`directory.split("_")[-1]`, and `enumerate(obj_list, start=1)` assigns
sequence numbers in list order.  Classified records always carry their
`SourceFile` and normalized `CreateDate`, so the `getD` defaults are never
taken on pipeline-produced records. -/
def renameOpsForDir (project dir : Str) (objs : List Metadata) : List RenameOp :=
  (List.enumFrom 1 objs).map (fun p =>
    { oldName := p.2.sourceFile.getD []
      newName := pyFileName dir (p.2.createDate.getD []) project p.1 (lastSeg dir)
      seq := p.1 })

/-! ### Conversion orchestration (`_handle_raw_conversion`, lines 856-874) -/

/-- Python `s.rsplit(sep, 1)` on a string known to contain `sep`:
`(before-last-sep, after-last-sep)`.  (On a string without `sep` Python
raises `ValueError` on the 2-element unpacking; bucket keys always contain
underscores.) -/
def rsplitOnce (sep : Char) (s : Str) : Str × Str :=
  ((s.reverse.dropWhile (fun c => c ≠ sep)).drop 1 |>.reverse,
   (s.reverse.takeWhile (fun c => c ≠ sep)).reverse)

/-- The orchestration skeleton produced by `_handle_raw_conversion`:
`batches` is the list of `asyncio.gather` groups of conversion jobs — the
coroutines of one group are scheduled concurrently on the event loop (each
one awaits an external converter subprocess, so invocations within a group
overlap in time) — and groups, followed by the cleanup step over
`cleanupAfter`, execute in sequence (each is `await`ed before the next
starts). -/
structure RawPlan where
  batches : List (List (Str × Str))
  cleanupAfter : List (Str × Str)
deriving DecidableEq, Repr

/-- `_handle_raw_conversion(value)`: derive `(old_dir, new_dir)` pairs from
the RAW bucket keys, skipping keys whose extension suffix is already
`dng`; if any remain, run **one** `asyncio.gather` over all conversion
coroutines and only then call `_delete_original_raw_files`. -/
def handle_raw_conversion (rawKeys : List Str) : RawPlan :=
  let convertList := rawKeys.filterMap (fun oldDir =>
    let p := rsplitOnce '_' oldDir
    if p.2 = "dng".data then none
    else some (oldDir, p.1 ++ '_' :: "dng".data))
  if convertList.isEmpty then { batches := [], cleanupAfter := [] }
  else { batches := [convertList], cleanupAfter := convertList }

/-- Claim C1's reading of the orchestration: converter invocations happen
one at a time (every concurrently-scheduled group has at most one job). -/
def sequentialInvocation (p : RawPlan) : Prop :=
  ∀ b ∈ p.batches, b.length ≤ 1

/-! ### Originals cleanup (`_delete_original_raw_files`, lines 699-714) -/

/-- The body of the cleanup loop for one `(raw_dir, dng_dir)` pair, acting
on the directory listings: if every RAW stem also occurs among the DNG
stems the whole RAW directory is removed (`shutil.rmtree`, result `none`);
otherwise only the RAW files whose stem matches a DNG stem are deleted
(`os.remove` of `{stem}.{raw_dir.split("_")[-1]}`), and the result is the
remaining directory contents. -/
def delete_original_raw_pair (rawDirName : Str) (rawFiles dngFiles : List Str) :
    Option (List Str) :=
  let rawStems := rawFiles.map stemOf
  let dngStems := dngFiles.map stemOf
  if rawStems.all (fun s => s ∈ dngStems) then none
  else
    let ext := lastSeg rawDirName
    let matching := rawStems.filter (fun s => s ∈ dngStems)
    some (rawFiles.filter (fun f => f ∉ matching.map (fun s => s ++ '.' :: ext)))

/-! ### Bucket accumulation and the reactive classification stage
(`process_images_reactive`, lines 744-809) -/

/-- A two-level insertion-ordered dict:
`list_collection[list_type][dir_name] -> list of metadata`. -/
abbrev Collection := List (ListTy × List (Str × List Metadata))

/-- `dict.setdefault(dir_name, []).append(metadata)` on the inner dict. -/
def dirAdd (m : List (Str × List Metadata)) (k : Str) (v : Metadata) :
    List (Str × List Metadata) :=
  match m with
  | [] => [(k, [v])]
  | (k', vs) :: rest =>
    if k' = k then (k', vs ++ [v]) :: rest else (k', vs) :: dirAdd rest k v

/-- `list_collection.setdefault(list_type.value, {})` followed by the inner
`setdefault`-append. -/
def colAdd (col : Collection) (t : ListTy) (k : Str) (v : Metadata) : Collection :=
  match col with
  | [] => [(t, dirAdd [] k v)]
  | (t', m) :: rest =>
    if t' = t then (t', dirAdd m k v) :: rest else (t', m) :: colAdd rest t k v

/-- RxPY's `ops.retry(retry_count)` subscribes its source at most
`retry_count` times **in total** (it is `catch_with_iterable` over
`itertools.repeat(source, retry_count)`), so `.retry(2)` means one initial
attempt plus at most one re-subscription. -/
def rxRetryCount : Nat := 2

/-- The per-item chain
`map(process_metadata_item) |> retry(2) |> catch(-> empty) |> filter(not None)`
folded over the metadata list.  `raiseAt i k` models "processing of item
`i` raises a Python exception on its `k`-th subscription" (the classifier
itself is pure, but the reactive stage guards against per-item
exceptions); an item is accumulated iff one of its `rxRetryCount`
attempts does not raise, and a unit that exhausts its attempts is caught,
logged and dropped.  Arrival order of the reactive fan-out is modelled as
list order (completion order is not guaranteed by the scheduler; none of
the verified properties depend on it). -/
def classifyGo (raiseAt : Nat → Nat → Bool) (fallback : Str) (filtered : List Str) :
    Nat → Collection → List Metadata → Collection
  | _, col, [] => col
  | i, col, md :: rest =>
    let col' :=
      if (List.range rxRetryCount).any (fun k => !raiseAt i k) then
        match process_metadata fallback md filtered with
        | some (t, k, m) => colAdd col t k m
        | none => col
      else col
    classifyGo raiseAt fallback filtered (i + 1) col' rest

/-- The retry-free accumulation of a metadata list into buckets. -/
def classifyPure (fallback : Str) (filtered : List Str) :
    Collection → List Metadata → Collection
  | col, [] => col
  | col, md :: rest =>
    let col' :=
      match process_metadata fallback md filtered with
      | some (t, k, m) => colAdd col t k m
      | none => col
    classifyPure fallback filtered col' rest

/-- The metadata items whose unit does not exhaust its retry budget,
starting at item index `i`. -/
def keptFrom (raiseAt : Nat → Nat → Bool) : Nat → List Metadata → List Metadata
  | _, [] => []
  | i, md :: rest =>
    if (List.range rxRetryCount).any (fun k => !raiseAt i k) then
      md :: keptFrom raiseAt (i + 1) rest
    else keptFrom raiseAt (i + 1) rest

/-- Claim C8's reading of the retry semantics: up to 2 *additional*
retries, i.e. three subscriptions in total. -/
def claimKeptFrom (raiseAt : Nat → Nat → Bool) : Nat → List Metadata → List Metadata
  | _, [] => []
  | i, md :: rest =>
    if (List.range 3).any (fun k => !raiseAt i k) then
      md :: claimKeptFrom raiseAt (i + 1) rest
    else claimKeptFrom raiseAt (i + 1) rest

/-! ### Pipeline coordinator (`process_images_reactive`, lines 716-816) -/

/-- The exclusion regex `Adobe Bridge Cache|Thumbs.db|^\.` under
`re.match` (anchored at the start; the `.` of `Thumbs.db` matches any
character). -/
def excludedName (s : Str) : Bool :=
  leadsWith "Adobe Bridge Cache".data s ||
    (leadsWith "Thumbs".data s && (s.drop 7).take 2 = "db".data && s.length ≥ 9) ||
    leadsWith ['.'] s

/-- Stable insertion into a lexicographically sorted list. -/
def insertSorted (x : Str) : List Str → List Str
  | [] => [x]
  | y :: ys => if strLtB x y then x :: y :: ys else y :: insertSorted x ys

/-- Python `sorted` on strings. -/
def sortStrs (l : List Str) : List Str := l.foldr insertSorted []

/-- The fatal error taxonomy of the pipeline entry point: `ValueError`
from `_validate_image_dir`, and
`ValueError("No files to process for the current directory.")`. -/
inductive PErr
  | validationError
  | noFilesError
deriving DecidableEq, Repr

/-- Observable side effects of a pipeline run (coarse-grained I/O trace). -/
inductive Ev
  | chdir (d : Str)
  | listdir
  | exifCall (files : List Str)
  | mkdir (d : Str)
  | renameF (a b : Str)
  | convert (src dst : Str)
  | cleanupOriginals (pairs : List (Str × Str))
deriving DecidableEq, Repr

/-- External collaborators and the per-run filesystem facts, supplied as
an environment: `baseName` abstracts `os.path.basename(os.path.normpath ·)`,
`resolve` abstracts `os.chdir` path resolution (`resolve cwd target` is the
working directory after `chdir(target)` from `cwd`), `listFiles` is the
plain-file listing of the image directory, `exif` the external metadata
provider (modelled total: provider failure is out of the claims' scope),
and `raiseAt` the per-item exception behavior of the classification
stage. -/
structure PyEnv where
  baseName : Str → Str
  resolve : Str → Str → Str
  listFiles : List Str
  exif : List Str → List Metadata
  raiseAt : Nat → Nat → Bool

/-- Result of a pipeline run: outcome, final working directory, and the
I/O trace. -/
structure PRes where
  res : Except PErr Unit
  cwd : Str
  trace : List Ev
deriving Repr

/-- Events of the rename-and-convert stage for one accumulated collection:
per destination directory a `makedirs` (existence check elided) and the
scheduled renames; for the RAW group, the conversion plan's gathered jobs
followed by the originals cleanup. -/
def groupStageEvents (project : Str) (col : Collection) : List Ev :=
  col.flatMap (fun g =>
    (g.2.flatMap (fun d =>
      Ev.mkdir d.1 ::
        (renameOpsForDir project d.1 d.2).map (fun op => Ev.renameF op.oldName op.newName))) ++
      (if g.1 = ListTy.rawImage then
        (let plan := handle_raw_conversion (g.2.map Prod.fst)
         (plan.batches.flatten.map (fun j => Ev.convert j.1 j.2)) ++
           (if plan.cleanupAfter.isEmpty then [] else [Ev.cleanupOriginals plan.cleanupAfter]))
      else []))

/-- The filtered, sorted candidate file list (lines 725-732). -/
def filteredOf (env : PyEnv) : List Str :=
  sortStrs (env.listFiles.filter (fun f => !excludedName f))

/-- The accumulated `list_collection` for a run (classification of the
extracted metadata with the directory-derived fallback date). -/
def collectionOf (env : PyEnv) (base : Str) : Collection :=
  classifyGo env.raiseAt (extract_directory_info base).1 (filteredOf env) 0 []
    (env.exif (filteredOf env))

/-- The body of the `try` block (lines 722-813): list and filter the
directory, return silently when nothing is left, extract metadata, run
the reactive classification stage, raise when no bucket was accumulated,
and otherwise drive the per-group rename/conversion stage. -/
def pipelineBody (env : PyEnv) (base project : Str) : Except PErr Unit × List Ev :=
  if (filteredOf env).isEmpty then (.ok (), [.listdir])
  else if (collectionOf env base).isEmpty then
    (.error .noFilesError, [.listdir, .exifCall (filteredOf env)])
  else
    (.ok (), [.listdir, .exifCall (filteredOf env)] ++
      groupStageEvents project (collectionOf env base))

/-- The base name `_validate_image_dir` and `_extract_directory_info`
act on: the target directory when one is given, the current working
directory for `"."`. -/
def pipelineBase (env : PyEnv) (opDir cwd0 : Str) : Str :=
  env.baseName (if opDir = ['.'] then cwd0 else opDir)

/-- `process_images_reactive` (lines 716-816): validate the directory base
name **before** any filesystem access, change into the image directory
(saving the previous working directory), run the body, and — in a
`finally` — change back.  A validation failure therefore raises with an
empty I/O trace and an unchanged working directory. -/
def process_images_reactive (env : PyEnv) (opDir : Str) (cwd0 : Str) : PRes :=
  if !validate_image_dir (pipelineBase env opDir cwd0) then
    { res := .error .validationError, cwd := cwd0, trace := [] }
  else if opDir = ['.'] then
    { res := (pipelineBody env (pipelineBase env opDir cwd0)
        (project_name_of (env.baseName cwd0))).1
      cwd := cwd0
      trace := (pipelineBody env (pipelineBase env opDir cwd0)
        (project_name_of (env.baseName cwd0))).2 }
  else
    { res := (pipelineBody env (pipelineBase env opDir cwd0)
        (project_name_of (env.baseName (env.resolve cwd0 opDir)))).1
      cwd := env.resolve (env.resolve cwd0 opDir) cwd0
      trace := .chdir opDir :: (pipelineBody env (pipelineBase env opDir cwd0)
        (project_name_of (env.baseName (env.resolve cwd0 opDir)))).2 ++ [.chdir cwd0] }

/-! ### Toolkit lemmas about the string primitives -/

/-- `takeWhile` never scans past an element falsifying the predicate. -/
theorem takeWhile_append_break (p : Char → Bool) (a : Str) (c : Char) (b : Str)
    (hc : p c = false) : (a ++ c :: b).takeWhile p = a.takeWhile p := by
  induction a with
  | nil => simp [List.takeWhile, hc]
  | cons x xs ih =>
    simp only [List.cons_append, List.takeWhile]
    cases p x <;> simp [ih]

/-- `takeWhile` over a list all of whose elements satisfy the predicate. -/
theorem takeWhile_of_all (p : Char → Bool) (a : Str) (ha : ∀ c ∈ a, p c = true) :
    a.takeWhile p = a := by
  induction a with
  | nil => rfl
  | cons x xs ih =>
    simp only [List.takeWhile, ha x (by simp)]
    simp only [List.cons.injEq, true_and]
    exact ih (fun c hc => ha c (by simp [hc]))

/-- `dropWhile` skips a fully-satisfying prefix. -/
theorem dropWhile_append_of_all (p : Char → Bool) (a b : Str)
    (ha : ∀ c ∈ a, p c = true) : (a ++ b).dropWhile p = b.dropWhile p := by
  induction a with
  | nil => rfl
  | cons x xs ih =>
    simp only [List.cons_append, List.dropWhile, ha x (by simp)]
    exact ih (fun c hc => ha c (by simp [hc]))

/-- `lastSeg` after appending a fresh underscore-separated suffix. -/
theorem lastSeg_append (x y : Str) : lastSeg (x ++ '_' :: y) = lastSeg y := by
  unfold lastSeg
  rw [List.reverse_append, List.reverse_cons, List.append_assoc, List.singleton_append,
    takeWhile_append_break _ _ '_' _ (by decide)]

/-- A string without underscores is its own last segment. -/
theorem lastSeg_of_no_underscore (y : Str) (hy : '_' ∉ y) : lastSeg y = y := by
  unfold lastSeg
  rw [takeWhile_of_all, List.reverse_reverse]
  intro c hc
  have : c ∈ y := List.mem_reverse.mp hc
  simp only [decide_eq_true_eq, ne_eq]
  intro hcu
  exact hy (hcu ▸ this)

/-- Elements of `lastSeg` are never underscores. -/
theorem lastSeg_no_underscore (s : Str) : '_' ∉ lastSeg s := by
  unfold lastSeg
  intro h
  have h2 := List.mem_reverse.mp h
  have := List.mem_takeWhile_imp h2
  simp at this

/-- Everything before the last dot of a string (used to state the
sequence-suffix property of generated file names). -/
def beforeLastDot (s : Str) : Str := ((s.reverse.dropWhile (fun c => c ≠ '.')).drop 1).reverse

/-- Cutting a dot-free extension off recovers the stem. -/
theorem beforeLastDot_append (x e : Str) (he : '.' ∉ e) :
    beforeLastDot (x ++ '.' :: e) = x := by
  unfold beforeLastDot
  rw [List.reverse_append, List.reverse_cons, List.append_assoc, List.singleton_append,
    dropWhile_append_of_all _ _ _ (by
      intro c hc
      have : c ∈ e := List.mem_reverse.mp hc
      simp only [decide_eq_true_eq, ne_eq]
      intro hcd
      exact he (hcd ▸ this))]
  simp

/-- The `stemOf` of a file with a dot-free extension is its base. -/
theorem stemOf_append (x e : Str) (he : '.' ∉ e) : stemOf (x ++ '.' :: e) = x := by
  unfold stemOf
  rw [if_pos (by simp)]
  exact beforeLastDot_append x e he

/-! #### Numeric-string lemmas -/

theorem strVal_from (acc : Nat) (l : Str) :
    l.foldl (fun a c => 10 * a + digitVal c) acc = acc * 10 ^ l.length + strVal l := by
  induction l generalizing acc with
  | nil => simp [strVal]
  | cons c cs ih =>
    show cs.foldl _ (10 * acc + digitVal c) = _
    rw [ih (10 * acc + digitVal c)]
    have hc : strVal (c :: cs) = digitVal c * 10 ^ cs.length + strVal cs := by
      show cs.foldl _ (10 * 0 + digitVal c) = _
      rw [ih (10 * 0 + digitVal c)]
      ring_nf
    rw [hc]
    simp [List.length_cons, pow_succ]
    ring

theorem strVal_append (a b : Str) : strVal (a ++ b) = strVal a * 10 ^ b.length + strVal b := by
  show (a ++ b).foldl _ 0 = _
  rw [List.foldl_append, strVal_from]
  rfl

theorem digitVal_le_nine (c : Char) (h : isDigitB c = true) : digitVal c ≤ 9 := by
  simp only [isDigitB, Bool.and_eq_true, decide_eq_true_eq] at h
  unfold digitVal
  omega

theorem strVal_lt_pow (s : Str) (h : ∀ c ∈ s, isDigitB c = true) :
    strVal s < 10 ^ s.length := by
  induction s with
  | nil => simp [strVal]
  | cons c cs ih =>
    have hc : strVal (c :: cs) = digitVal c * 10 ^ cs.length + strVal cs := by
      show cs.foldl _ (10 * 0 + digitVal c) = _
      rw [strVal_from]
      ring_nf
    rw [hc]
    have h1 := ih (fun x hx => h x (by simp [hx]))
    have h2 := digitVal_le_nine c (h c (by simp))
    have : digitVal c * 10 ^ cs.length ≤ 9 * 10 ^ cs.length :=
      Nat.mul_le_mul_right _ h2
    calc digitVal c * 10 ^ cs.length + strVal cs
        < digitVal c * 10 ^ cs.length + 10 ^ cs.length := by omega
      _ ≤ 9 * 10 ^ cs.length + 10 ^ cs.length := by omega
      _ = 10 ^ (cs.length + 1) := by ring
      _ = 10 ^ (c :: cs).length := by simp

/-- On equal-length digit strings, Python's lexicographic `<` agrees with
numeric comparison. -/
theorem strLtB_iff_val (s t : Str) (hl : s.length = t.length)
    (hs : ∀ c ∈ s, isDigitB c = true) (ht : ∀ c ∈ t, isDigitB c = true) :
    strLtB s t = true ↔ strVal s < strVal t := by
  induction s generalizing t with
  | nil =>
    cases t with
    | nil => simp [strLtB, strVal]
    | cons b bs => simp at hl
  | cons a as ih =>
    cases t with
    | nil => simp at hl
    | cons b bs =>
      have hlen : as.length = bs.length := by simpa using hl
      have hsa : strVal (a :: as) = digitVal a * 10 ^ as.length + strVal as := by
        show as.foldl _ (10 * 0 + digitVal a) = _
        rw [strVal_from]; ring_nf
      have hsb : strVal (b :: bs) = digitVal b * 10 ^ bs.length + strVal bs := by
        show bs.foldl _ (10 * 0 + digitVal b) = _
        rw [strVal_from]; ring_nf
      have hva : strVal as < 10 ^ as.length :=
        strVal_lt_pow as (fun c hc => hs c (by simp [hc]))
      have hvb : strVal bs < 10 ^ bs.length :=
        strVal_lt_pow bs (fun c hc => ht c (by simp [hc]))
      have hda : 48 ≤ a.toNat ∧ a.toNat ≤ 57 := by
        have := hs a (by simp)
        simpa [isDigitB] using this
      have hdb : 48 ≤ b.toNat ∧ b.toNat ≤ 57 := by
        have := ht b (by simp)
        simpa [isDigitB] using this
      show (if a.toNat < b.toNat then true
        else if a = b then strLtB as bs else false) = true ↔ _
      by_cases hab : a.toNat < b.toNat
      · rw [if_pos hab]
        simp only [true_iff]
        rw [hsa, hsb, hlen]
        rw [hlen] at hva
        have hd : digitVal a < digitVal b := by unfold digitVal; omega
        calc digitVal a * 10 ^ bs.length + strVal as
            < digitVal a * 10 ^ bs.length + 10 ^ bs.length := by
              omega
          _ = (digitVal a + 1) * 10 ^ bs.length := by ring
          _ ≤ digitVal b * 10 ^ bs.length := Nat.mul_le_mul_right _ (by omega)
          _ ≤ digitVal b * 10 ^ bs.length + strVal bs := by omega
      · rw [if_neg hab]
        by_cases heq : a = b
        · rw [if_pos heq]
          rw [ih bs hlen (fun c hc => hs c (by simp [hc]))
            (fun c hc => ht c (by simp [hc]))]
          subst heq
          rw [hsa, hsb, hlen]
          omega
        · rw [if_neg heq]
          simp only [Bool.false_eq_true, false_iff, not_lt]
          have hba : b.toNat < a.toNat := by
            rcases Nat.lt_or_ge b.toNat a.toNat with h | h
            · exact h
            · exact absurd (char_toNat_inj a b (by omega)) heq
          rw [hsa, hsb, hlen]
          have hd : digitVal b < digitVal a := by unfold digitVal; omega
          refine le_of_lt ?_
          calc digitVal b * 10 ^ bs.length + strVal bs
              < (digitVal b + 1) * 10 ^ bs.length := by
                have he : (digitVal b + 1) * 10 ^ bs.length =
                    digitVal b * 10 ^ bs.length + 10 ^ bs.length := by ring
                rw [he]
                omega
            _ ≤ digitVal a * 10 ^ bs.length := Nat.mul_le_mul_right _ (by omega)
            _ ≤ digitVal a * 10 ^ bs.length + strVal as := by omega

/-! #### Decimal-representation lemmas -/

theorem digitVal_digitCh (d : Nat) : digitVal (digitCh d) = d ∨ 55248 ≤ d := by
  rcases Nat.lt_or_ge d 55248 with h | h
  · left
    unfold digitVal digitCh
    rw [char_toNat_ofNat (48 + d) (by omega)]
    omega
  · right; exact h

theorem digitVal_digitCh_of_lt (d : Nat) (h : d < 10) : digitVal (digitCh d) = d := by
  rcases digitVal_digitCh d with h1 | h1
  · exact h1
  · omega

theorem isDigitB_digitCh (d : Nat) (h : d < 10) : isDigitB (digitCh d) = true := by
  unfold isDigitB digitCh
  rw [Bool.and_eq_true]
  constructor <;> rw [decide_eq_true_iff] <;>
    rw [char_toNat_ofNat (48 + d) (by omega)] <;> omega

theorem strVal_replicate_zero (k : Nat) : strVal (List.replicate k '0') = 0 := by
  induction k with
  | zero => rfl
  | succ n ih =>
    show (List.replicate (n + 1) '0').foldl _ 0 = 0
    rw [List.replicate_succ]
    show (List.replicate n '0').foldl _ (10 * 0 + digitVal '0') = 0
    have : 10 * 0 + digitVal '0' = 0 := by decide
    rw [this]
    exact ih

theorem strVal_digits_rev (ds : List Nat) (h : ∀ d ∈ ds, d < 10) :
    strVal ((ds.map digitCh).reverse) = Nat.ofDigits 10 ds := by
  induction ds with
  | nil => rfl
  | cons d rest ih =>
    rw [List.map_cons, List.reverse_cons, strVal_append]
    have h1 : strVal [digitCh d] = d := by
      show [digitCh d].foldl _ 0 = d
      simp only [List.foldl_cons, List.foldl_nil]
      rw [digitVal_digitCh_of_lt d (h d (by simp))]
      omega
    rw [h1, ih (fun x hx => h x (by simp [hx])), Nat.ofDigits_cons]
    simp
    ring

theorem strVal_natRepr (n : Nat) : strVal (natRepr n) = n := by
  unfold natRepr
  by_cases h : n = 0
  · subst h; decide
  · rw [if_neg h, natDigitsRev_eq n n (le_refl n),
      strVal_digits_rev _ (fun d hd => Nat.digits_lt_base (by norm_num) hd),
      Nat.ofDigits_digits]

theorem strVal_pad3 (n : Nat) : strVal (pad3 n) = n := by
  unfold pad3
  rw [strVal_append, strVal_replicate_zero, strVal_natRepr]
  simp

theorem pad3_inj (m n : Nat) (h : pad3 m = pad3 n) : m = n := by
  have := strVal_pad3 m
  rw [h, strVal_pad3] at this
  omega

theorem natRepr_digits (n : Nat) : ∀ c ∈ natRepr n, isDigitB c = true := by
  unfold natRepr
  by_cases h : n = 0
  · subst h; intro c hc; simp at hc; subst hc; decide
  · rw [if_neg h, natDigitsRev_eq n n (le_refl n)]
    intro c hc
    rw [List.mem_reverse, List.mem_map] at hc
    obtain ⟨d, hd, hdc⟩ := hc
    subst hdc
    exact isDigitB_digitCh d (Nat.digits_lt_base (by norm_num) hd)

theorem pad3_digits (n : Nat) : ∀ c ∈ pad3 n, isDigitB c = true := by
  unfold pad3
  intro c hc
  rw [List.mem_append] at hc
  rcases hc with hc | hc
  · have := List.eq_of_mem_replicate hc
    subst this; decide
  · exact natRepr_digits n c hc

theorem digit_toNat_range (c : Char) (h : isDigitB c = true) :
    48 ≤ c.toNat ∧ c.toNat ≤ 57 := by
  simpa [isDigitB] using h

theorem digit_char_cases (c t : Char) (h : isDigitB c = true) (ht : isDigitB t = false) :
    c ≠ t := by
  intro he
  subst he
  rw [h] at ht
  exact absurd ht (by simp)

/-- Lower-casing fixes digit characters. -/
theorem toLower_digit (c : Char) (h : isDigitB c = true) : Char.toLower c = c := by
  have := digit_toNat_range c h
  exact toLower_of_lt c (by omega)

/-- A map that fixes every element of a list is the identity there. -/
theorem map_fix (f : Char → Char) (l : Str) (h : ∀ c ∈ l, f c = c) : l.map f = l := by
  induction l with
  | nil => rfl
  | cons c cs ih =>
    rw [List.map_cons, h c (by simp), ih (fun x hx => h x (by simp [hx]))]

theorem pyLower_pad3 (n : Nat) : pyLower (pad3 n) = pad3 n :=
  map_fix _ _ (fun c hc => toLower_digit c (pad3_digits n c hc))

/-! ## Claim C1 — conversion-job scheduling and cleanup ordering -/

/-- Two RAW buckets needing conversion, as in the repository's own test
`test_handle_raw_conversion_complete`. -/
def twoRawKeys : List Str := ["canon_eosr5_cr2".data, "nikon_d850_nef".data]

/-- Claim C1 (counterexample): with two RAW conversion jobs,
`_handle_raw_conversion` awaits a single `asyncio.gather` containing both
converter invocations, so the jobs are scheduled concurrently — the
claimed one-at-a-time sequencing is violated (both jobs sit in the same
concurrently-scheduled batch). -/
theorem C1_counterexample :
    ¬ sequentialInvocation (handle_raw_conversion twoRawKeys) ∧
      (handle_raw_conversion twoRawKeys).batches.flatten.length = 2 := by
  constructor
  · intro h
    have h2 := h ((handle_raw_conversion twoRawKeys).batches.head (by decide))
    revert h2
    decide
  · decide

/-- Claim C1 (amended): all derived conversion jobs are launched as one
concurrent `asyncio.gather` batch (never more than one batch), and the
originals-cleanup step runs strictly after that batch, over exactly the
gathered jobs. -/
theorem C1_amended (rawKeys : List Str) :
    (handle_raw_conversion rawKeys).batches.length ≤ 1 ∧
      (handle_raw_conversion rawKeys).cleanupAfter =
        (handle_raw_conversion rawKeys).batches.flatten := by
  unfold handle_raw_conversion
  by_cases h : (rawKeys.filterMap (fun oldDir =>
    let p := rsplitOnce '_' oldDir
    if p.2 = "dng".data then none
    else some (oldDir, p.1 ++ '_' :: "dng".data))).isEmpty
  · simp [h]
  · simp [h]

/-! ## Claim C8 — retry budget of the classification stage -/

/-- Claim C8 (amended): the reactive classification stage processes each
unit with at most `rxRetryCount = 2` subscriptions in total (one initial
attempt plus one retry — RxPY's `retry(2)`), and a unit that raises on
both attempts is dropped: the accumulated collection is exactly the
retry-free accumulation of the surviving units, so a dropped unit appears
in no bucket and the remaining units are processed normally. -/
theorem C8_amended (raiseAt : Nat → Nat → Bool) (fallback : Str) (filtered : List Str) :
    ∀ (mds : List Metadata) (i : Nat) (col : Collection),
      classifyGo raiseAt fallback filtered i col mds =
        classifyPure fallback filtered col (keptFrom raiseAt i mds) := by
  intro mds
  induction mds with
  | nil => intro i col; rfl
  | cons md rest ih =>
    intro i col
    have hk : keptFrom raiseAt i (md :: rest) =
        if ((List.range rxRetryCount).any fun k => !raiseAt i k) = true then
          md :: keptFrom raiseAt (i + 1) rest
        else keptFrom raiseAt (i + 1) rest := rfl
    by_cases h : ((List.range rxRetryCount).any fun k => !raiseAt i k) = true
    · show classifyGo raiseAt fallback filtered (i + 1)
        (if (List.range rxRetryCount).any (fun k => !raiseAt i k) then
          match process_metadata fallback md filtered with
          | some (t, k, m) => colAdd col t k m
          | none => col
        else col) rest = _
      rw [if_pos h, ih (i + 1), hk, if_pos h]
      rfl
    · show classifyGo raiseAt fallback filtered (i + 1)
        (if (List.range rxRetryCount).any (fun k => !raiseAt i k) then
          match process_metadata fallback md filtered with
          | some (t, k, m) => colAdd col t k m
          | none => col
        else col) rest = _
      rw [if_neg h, ih (i + 1), hk, if_neg h]

/-- A classifiable record (a plain `jpg` without RAW sibling). -/
def mdJpg : Metadata :=
  { sourceFile := some "a.jpg".data, createDate := none, make := none, model := none }

/-- Exception model: item 0 raises on its first two subscriptions and
would succeed on a third. -/
def failTwice : Nat → Nat → Bool := fun i k => i = 0 && k ≤ 1

/-- Claim C8 (counterexample): a unit whose first two attempts raise and
whose third would succeed.  Under the claim's "2 additional retries" it
survives (`claimKeptFrom` keeps it, and the accumulated collection would
be nonempty); the code's `ops.retry(2)` gives up after the second
subscription, so the unit lands in no bucket at all. -/
theorem C8_counterexample :
    classifyGo failTwice "20241210".data ["a.jpg".data] 0 [] [mdJpg] = [] ∧
      keptFrom failTwice 0 [mdJpg] = [] ∧
      claimKeptFrom failTwice 0 [mdJpg] = [mdJpg] ∧
      failTwice 0 2 = false ∧
      classifyPure "20241210".data ["a.jpg".data] [] (claimKeptFrom failTwice 0 [mdJpg]) ≠
        [] := by
  refine ⟨by decide, by decide, by decide, by decide, by decide⟩

/-! ## Claim C10 — working directory restored -/

/-- Claim C10: for a target directory other than `"."`, the working
directory after the run equals the working directory before it, both on
normal return and on either fatal error.  The hypothesis `habs` states
that `os.chdir` to the absolute path previously returned by `os.getcwd()`
restores exactly that directory. -/
theorem C10_cwd_restored (env : PyEnv) (opDir cwd0 : Str) (hne : opDir ≠ ['.'])
    (habs : ∀ x, env.resolve x cwd0 = cwd0) :
    (process_images_reactive env opDir cwd0).cwd = cwd0 := by
  unfold process_images_reactive
  by_cases hv : validate_image_dir (pipelineBase env opDir cwd0)
  · rw [hv]
    simp only [Bool.not_true, Bool.false_eq_true, if_false, if_neg hne]
    exact habs _
  · simp only [Bool.not_eq_true] at hv
    rw [hv]
    simp

/-- A concrete environment for the witnesses. -/
def envW : PyEnv :=
  { baseName := baseNamePosix
    resolve := fun _ p => p
    listFiles := ["IMG001.CR2".data, "IMG001.JPG".data, "Thumbs.db".data]
    exif := fun fs =>
      fs.map (fun f => { sourceFile := some f, createDate := none, make := none, model := none })
    raiseAt := fun _ _ => false }

/-- Witness for C10 at a concrete run. -/
theorem C10_witness :
    (process_images_reactive envW "20241210_trip".data "/home".data).cwd = "/home".data :=
  C10_cwd_restored envW "20241210_trip".data "/home".data (by decide) (fun _ => rfl)

/-! ## Claim C2 — asymmetric originals cleanup -/

/-- Claim C2: after conversion, for a `(rawDir, dngDir)` pair the cleanup
is asymmetric.  If every stem of `rawDir` has a matching stem in `dngDir`,
the whole RAW directory is removed (`none`); otherwise the directory
survives and afterwards contains exactly the RAW files whose stem has no
matching DNG stem.  The hypotheses record the state the pipeline
guarantees when cleanup runs: `rawDir`'s files all carry the directory's
extension suffix (the renamer just produced them that way), and that
suffix contains no dot. -/
theorem C2_cleanup_asymmetric (rawDirName : Str) (rawFiles dngFiles : List Str)
    (hext : '.' ∉ lastSeg rawDirName)
    (hshape : ∀ f ∈ rawFiles, ∃ s, f = s ++ '.' :: lastSeg rawDirName) :
    (((rawFiles.map stemOf).all (fun s => s ∈ dngFiles.map stemOf) = true →
        delete_original_raw_pair rawDirName rawFiles dngFiles = none) ∧
      ((rawFiles.map stemOf).all (fun s => s ∈ dngFiles.map stemOf) = false →
        delete_original_raw_pair rawDirName rawFiles dngFiles =
          some (rawFiles.filter (fun f => stemOf f ∉ dngFiles.map stemOf)))) := by
  constructor
  · intro hall
    unfold delete_original_raw_pair
    rw [if_pos hall]
  · intro hnot
    unfold delete_original_raw_pair
    rw [if_neg (by rw [hnot]; simp)]
    simp only [Option.some.injEq]
    apply List.filter_congr
    intro f hf
    obtain ⟨s, hfs⟩ := hshape f hf
    have hstem : stemOf f = s := by rw [hfs]; exact stemOf_append s _ hext
    have hiff : (f ∈ ((rawFiles.map stemOf).filter
        (fun s => s ∈ dngFiles.map stemOf)).map
          (fun s => s ++ '.' :: lastSeg rawDirName)) ↔
        stemOf f ∈ dngFiles.map stemOf := by
      constructor
      · intro hmem
        rw [List.mem_map] at hmem
        obtain ⟨s', hs', hfs'⟩ := hmem
        have : s' = s := List.append_cancel_right (hfs'.trans hfs)
        subst this
        rw [List.mem_filter] at hs'
        rw [hstem]
        simpa using hs'.2
      · intro hmem
        rw [List.mem_map]
        refine ⟨s, ?_, hfs.symm⟩
        rw [List.mem_filter]
        constructor
        · rw [← hstem]
          exact List.mem_map_of_mem stemOf hf
        · rw [← hstem]
          simpa using hmem
    simp only [decide_eq_decide]
    rw [not_iff_not]
    exact hiff

/-- Witness for C2 at a concrete partially-converted pair: `b.cr2` has no
DNG counterpart, so the directory survives holding exactly `b.cr2`;
conversely a fully-converted listing is removed wholesale. -/
theorem C2_witness :
    delete_original_raw_pair "canon_eosr5_cr2".data
        ["a.cr2".data, "b.cr2".data] ["a.dng".data] =
      some ["b.cr2".data] := by
  have h := C2_cleanup_asymmetric "canon_eosr5_cr2".data
    ["a.cr2".data, "b.cr2".data] ["a.dng".data]
    (by decide)
    (by
      intro f hf
      rw [List.mem_cons, List.mem_singleton] at hf
      rcases hf with rfl | rfl
      · exact ⟨['a'], by decide⟩
      · exact ⟨['b'], by decide⟩)
  have h2 := h.2 (by decide)
  rw [h2]
  decide

/-! ## Claim C4 — sequential numbering within a bucket -/

/-- The sequence field of a generated file name: the segment between the
last underscore and the last dot. -/
def seqFieldOf (s : Str) : Str := lastSeg (beforeLastDot s)

/-- Number of occurrences of a string in a list of strings. -/
def countOcc (x : Str) (l : List Str) : Nat := (l.filter (fun y => y = x)).length

theorem countOcc_map_inj (f : Nat → Str) (hf : ∀ a b, f a = f b → a = b) (x : Nat)
    (l : List Nat) :
    countOcc (f x) (l.map f) = (l.filter (fun y => y = x)).length := by
  unfold countOcc
  induction l with
  | nil => rfl
  | cons a l ih =>
    rw [List.map_cons, List.filter_cons, List.filter_cons]
    have : (decide (f a = f x)) = (decide (a = x)) := by
      by_cases h : a = x
      · subst h; simp
      · have : f a ≠ f x := fun he => h (hf a x he)
        simp [h, this]
    rw [this]
    by_cases h : (decide (a = x)) = true
    · rw [h]
      simp only [if_true, List.length_cons, ih]
    · rw [Bool.not_eq_true] at h
      rw [h]
      simp only [Bool.false_eq_true, if_false, ih]

theorem filter_eq_range' (k : Nat) : ∀ s n : Nat,
    ((List.range' s n).filter (fun y => y = k)).length =
      if s ≤ k ∧ k < s + n then 1 else 0 := by
  intro s n
  induction n generalizing s with
  | zero =>
    simp only [List.range', List.filter_nil, List.length_nil]
    rw [if_neg]
    omega
  | succ m ih =>
    rw [List.range'_succ, List.filter_cons]
    by_cases h : s = k
    · subst h
      have hd : (decide (s = s)) = true := by simp
      rw [hd, if_pos rfl, List.length_cons, ih (s + 1), if_neg (by omega),
        if_pos (by omega)]
    · have hd : (decide (s = k)) = false := by simp [h]
      rw [hd, if_neg (by simp), ih (s + 1)]
      by_cases h2 : s + 1 ≤ k ∧ k < s + 1 + m
      · rw [if_pos h2, if_pos (by omega)]
      · rw [if_neg h2, if_neg (by omega)]

theorem pad3_no_underscore (n : Nat) : '_' ∉ pad3 n := by
  intro h
  exact digit_char_cases '_' '_' (pad3_digits n '_' h) (by decide) rfl

theorem pad3_no_dot (n : Nat) : '.' ∉ pad3 n := by
  intro h
  have := digit_toNat_range '.' (pad3_digits n '.' h)
  revert this
  decide

theorem pyLower_no_dot (e : Str) (he : '.' ∉ e) : '.' ∉ pyLower e := by
  intro h
  rw [pyLower, List.mem_map] at h
  obtain ⟨c, hc, hcl⟩ := h
  rw [toLower_eq_iff_of_lt c '.' (by decide)] at hcl
  exact he (hcl ▸ hc)

/-- Lower-casing is invertible at targets outside the lower-case letter
range (such as `'_'`): `toLower c = t ↔ c = t`. -/
theorem toLower_eq_fix_iff (c t : Char) (ht1 : t.isUpper = false)
    (ht2 : t.toNat < 97 ∨ 122 < t.toNat) : Char.toLower c = t ↔ c = t := by
  rw [toLower_def]
  split
  · next hcond =>
    obtain ⟨h1, h2⟩ := hcond
    constructor
    · intro he
      have hn : (Char.ofNat (c.toNat + 32)).toNat = t.toNat := by rw [he]
      rw [char_toNat_ofNat (c.toNat + 32) (by omega)] at hn
      omega
    · intro he
      subst he
      rw [(isUpper_iff c).mpr ⟨h1, h2⟩] at ht1
      exact absurd ht1 (by simp)
  · next h => exact Iff.rfl

theorem pyLower_no_underscore (e : Str) (he : '_' ∉ e) : '_' ∉ pyLower e := by
  intro h
  rw [pyLower, List.mem_map] at h
  obtain ⟨c, hc, hcl⟩ := h
  rw [toLower_eq_fix_iff c '_' (by decide) (by decide)] at hcl
  exact he (hcl ▸ hc)

/-- Extraction of the sequence field from a generated file name: for a
dot-free extension, `{...}_{seq:03d}.{ext}` yields back the padded
sequence number. -/
theorem seqField_pyFileName (dir date project : Str) (seq : Nat) (ext : Str)
    (hext : '.' ∉ ext) :
    seqFieldOf (pyFileName dir date project seq ext) = pad3 seq := by
  unfold pyFileName seqFieldOf pyLower
  have hassoc : ('.' :: '/' :: dir ++ '/' :: date ++ '_' :: project ++ '_' :: pad3 seq ++
      '.' :: ext) =
      (('.' :: '/' :: dir ++ '/' :: date ++ '_' :: project ++ '_' :: pad3 seq) ++
        '.' :: ext) := by
    simp [List.append_assoc]
  rw [hassoc, List.map_append]
  have hmapdot : List.map Char.toLower ('.' :: ext) = '.' :: pyLower ext := by
    rw [List.map_cons]
    congr 1
  rw [hmapdot, beforeLastDot_append _ _ (pyLower_no_dot ext hext)]
  have hassoc2 : ('.' :: '/' :: dir ++ '/' :: date ++ '_' :: project ++ '_' :: pad3 seq) =
      (('.' :: '/' :: dir ++ '/' :: date ++ '_' :: project) ++ '_' :: pad3 seq) := by
    simp [List.append_assoc]
  rw [hassoc2, List.map_append]
  have hmapu : List.map Char.toLower ('_' :: pad3 seq) = '_' :: pad3 seq := by
    rw [List.map_cons]
    congr 1
    exact pyLower_pad3 seq
  rw [hmapu, lastSeg_append, lastSeg_of_no_underscore _ (pad3_no_underscore seq)]

/-- Claim C4: for a bucket of `N` records, renaming assigns sequence
numbers `1..N` in list order; the `i`-th generated name is
`./{dir}/{date}_{project}_{i+1:03d}.{ext}` lower-cased (with `ext` the
bucket directory's extension suffix); no generated name contains an
upper-case letter; and each padded suffix `_001 .. _{N:03d}` occurs
exactly once among the names' sequence fields (no gaps, no duplicates).
The hypothesis restricts to extension suffixes without an embedded dot
(every supported extension is alphanumeric). -/
theorem C4_sequential_numbering (project dir : Str) (objs : List Metadata)
    (hdot : '.' ∉ lastSeg dir) :
    ((renameOpsForDir project dir objs).map (fun op => op.seq) =
        List.range' 1 objs.length) ∧
      (∀ i : Nat, ((renameOpsForDir project dir objs).map (fun op => op.newName))[i]? =
        (objs[i]?).map (fun o =>
          pyFileName dir (o.createDate.getD []) project (i + 1) (lastSeg dir))) ∧
      (∀ op ∈ renameOpsForDir project dir objs, ∀ c ∈ op.newName, c.isUpper = false) ∧
      (∀ k : Nat, 1 ≤ k → k ≤ objs.length →
        countOcc (pad3 k)
          ((renameOpsForDir project dir objs).map (fun op => seqFieldOf op.newName)) = 1) := by
  refine ⟨?_, ?_, ?_, ?_⟩
  · unfold renameOpsForDir
    rw [List.map_map]
    have : ((fun op : RenameOp => op.seq) ∘ (fun p : Nat × Metadata =>
        ({ oldName := p.2.sourceFile.getD []
           newName := pyFileName dir (p.2.createDate.getD []) project p.1 (lastSeg dir)
           seq := p.1 } : RenameOp))) = Prod.fst := rfl
    rw [this, List.enumFrom_map_fst]
  · intro i
    unfold renameOpsForDir
    rw [List.map_map, List.getElem?_map, List.getElem?_enumFrom]
    cases objs[i]? with
    | none => rfl
    | some o =>
      have hc : 1 + i = i + 1 := Nat.add_comm 1 i
      simp only [Option.map, hc]
      rfl
  · intro op hop c hc
    unfold renameOpsForDir at hop
    rw [List.mem_map] at hop
    obtain ⟨p, _, hpe⟩ := hop
    have : op.newName = pyLower ('.' :: '/' :: dir ++ '/' :: p.2.createDate.getD [] ++
        '_' :: project ++ '_' :: pad3 p.1 ++ '.' :: lastSeg dir) := by
      rw [← hpe]
      rfl
    rw [this, pyLower, List.mem_map] at hc
    obtain ⟨c', _, hce⟩ := hc
    rw [← hce]
    exact isUpper_toLower c'
  · intro k hk1 hk2
    unfold renameOpsForDir
    rw [List.map_map]
    have hfun : ((fun op : RenameOp => seqFieldOf op.newName) ∘ (fun p : Nat × Metadata =>
        ({ oldName := p.2.sourceFile.getD []
           newName := pyFileName dir (p.2.createDate.getD []) project p.1 (lastSeg dir)
           seq := p.1 } : RenameOp))) =
        (fun p : Nat × Metadata => pad3 p.1) := by
      funext p
      exact seqField_pyFileName dir (p.2.createDate.getD []) project p.1 (lastSeg dir) hdot
    rw [hfun]
    have hsplit : (fun p : Nat × Metadata => pad3 p.1) =
        (pad3 ∘ Prod.fst) := rfl
    rw [hsplit, ← List.map_map, List.enumFrom_map_fst]
    rw [countOcc_map_inj pad3 pad3_inj k, filter_eq_range' k 1 objs.length, if_pos (by omega)]

/-- Witness for C4 at a two-record bucket (thumbnail directory). -/
theorem C4_witness :
    ((renameOpsForDir "trip".data "canon_eosr5_thmb".data
        [{ sourceFile := some "IMG001.JPG".data,
           createDate := some "20241210-143005".data, make := none, model := none },
         { sourceFile := some "IMG003.JPG".data,
           createDate := some "20241210".data, make := none, model := none }]).map
      (fun op => op.seq)) = [1, 2] := by
  have h := C4_sequential_numbering "trip".data "canon_eosr5_thmb".data
    [{ sourceFile := some "IMG001.JPG".data,
       createDate := some "20241210-143005".data, make := none, model := none },
     { sourceFile := some "IMG003.JPG".data,
       createDate := some "20241210".data, make := none, model := none }]
    (by decide)
  rw [h.1]
  decide

/-! ## Claims C6 and C9 — thumbnail promotion and thumbnail extension -/

theorem intercalate3 (x y z : Str) :
    List.intercalate ['_'] [x, y, z] = x ++ '_' :: (y ++ '_' :: z) := by
  simp [List.intercalate, List.intersperse]

/-- Lower-casing distributes over an underscore-separated append. -/
theorem pyLower_append_underscore (x r : Str) :
    pyLower (x ++ '_' :: r) = pyLower x ++ '_' :: pyLower r := by
  unfold pyLower
  rw [List.map_append, List.map_cons]
  congr 1

/-- Lower-casing distributes over a dot-separated append. -/
theorem pyLower_append_dot (x r : Str) :
    pyLower (x ++ '.' :: r) = pyLower x ++ '.' :: pyLower r := by
  unfold pyLower
  rw [List.map_append, List.map_cons]
  congr 1

/-- The extension suffix of a directory key is the lower-cased bucket
extension, whatever the make and model are. -/
theorem dirKeyOf_lastSeg (make1 model1 e : Str) (he : '_' ∉ e) :
    lastSeg (dirKeyOf make1 model1 e) = pyLower e := by
  unfold dirKeyOf
  rw [intercalate3, pyLower_append_underscore, lastSeg_append, pyLower_append_underscore,
    lastSeg_append, lastSeg_of_no_underscore _ (pyLower_no_underscore e he)]

/-- Inversion of the classification chain: a thumbnail verdict forces the
`thmb` directory extension, the `jpg` file extension, and a RAW sibling. -/
theorem classifyExt_thumb_inv (fileBase fileExt0 : Str) (filteredList : List Str)
    (e : Str) (h : classifyExt fileBase fileExt0 filteredList = some (.thumbImage, e)) :
    e = thmbDir ∧ fileExt0 = thmbExt ∧
      rawExtList.any
        (fun rawExt => (pyLower fileBase ++ '.' :: rawExt) ∈ filteredList.map pyLower) =
          true := by
  unfold classifyExt at h
  by_cases h1 : fileExt0 ∈ rawExtList
  · rw [if_pos h1] at h
    exact absurd h (by simp)
  · rw [if_neg h1] at h
    by_cases h2 : fileExt0 ∈ compressedImageExts
    · rw [if_pos h2] at h
      by_cases h3 : fileExt0 = thmbExt
      · rw [if_pos h3] at h
        by_cases h4 : rawExtList.any
            (fun rawExt => (pyLower fileBase ++ '.' :: rawExt) ∈ filteredList.map pyLower)
        · rw [if_pos h4] at h
          simp only [Option.some.injEq, Prod.mk.injEq] at h
          exact ⟨h.2.symm, h3, h4⟩
        · rw [if_neg h4] at h
          exact absurd h (by simp)
      · rw [if_neg h3] at h
        exact absurd h (by simp)
    · rw [if_neg h2] at h
      by_cases h5 : fileExt0 ∈ compressedVideoExts
      · rw [if_pos h5] at h
        exact absurd h (by simp)
      · rw [if_neg h5] at h
        exact absurd h (by simp)

/-- Claim C6: a file whose processed extension is `jpg` is promoted to the
Thumbnail bucket (with directory-key suffix `thmb`) exactly when the
candidate file set contains a same-basename file with a supported RAW
extension (the comparison is case-insensitive, as in the source); without
such a sibling it is classified as a compressed image. -/
theorem C6_thumbnail_promotion (fallback : Str) (md : Metadata) (files : List Str)
    (fileName : Str) (hsf : md.sourceFile = some fileName)
    (hjpg : pyLower ((splitExt (baseNamePosix fileName)).2.filter (fun c => c ≠ '.')) =
      thmbExt) :
    ((rawExtList.any (fun rawExt =>
        (pyLower (splitExt (baseNamePosix fileName)).1 ++ '.' :: rawExt) ∈
          files.map pyLower)) = true →
      ∃ d m, process_metadata fallback md files = some (.thumbImage, d, m) ∧
        lastSeg d = thmbDir) ∧
      ((rawExtList.any (fun rawExt =>
        (pyLower (splitExt (baseNamePosix fileName)).1 ++ '.' :: rawExt) ∈
          files.map pyLower)) = false →
      ∃ d m, process_metadata fallback md files = some (.compressedImage, d, m)) := by
  have hcls : classifyExt (splitExt (baseNamePosix fileName)).1
      (pyLower ((splitExt (baseNamePosix fileName)).2.filter (fun c => c ≠ '.'))) files =
      (if rawExtList.any (fun rawExt =>
          (pyLower (splitExt (baseNamePosix fileName)).1 ++ '.' :: rawExt) ∈
            files.map pyLower)
       then some (.thumbImage, thmbDir)
       else some (.compressedImage, thmbExt)) := by
    rw [hjpg]
    unfold classifyExt
    rw [if_neg (by decide), if_pos (by decide), if_pos rfl]
  constructor
  · intro hsib
    refine ⟨dirKeyOf (normalizeMake md .thumbImage thmbDir)
        (normalizeModel md (normalizeMake md .thumbImage thmbDir)) thmbDir,
      { md with
          createDate := some (normalizeCreateDate fallback md.createDate)
          make := some (normalizeMake md .thumbImage thmbDir)
          model := some (normalizeModel md (normalizeMake md .thumbImage thmbDir)) },
      ?_, ?_⟩
    · unfold process_metadata
      rw [hsf, Option.some_bind, hcls, if_pos hsib]
      rfl
    · rw [dirKeyOf_lastSeg _ _ thmbDir (by decide)]
      decide
  · intro hsib
    refine ⟨dirKeyOf (normalizeMake md .compressedImage thmbExt)
        (normalizeModel md (normalizeMake md .compressedImage thmbExt)) thmbExt,
      { md with
          createDate := some (normalizeCreateDate fallback md.createDate)
          make := some (normalizeMake md .compressedImage thmbExt)
          model := some (normalizeModel md (normalizeMake md .compressedImage thmbExt)) },
      ?_⟩
    unfold process_metadata
    rw [hsf, Option.some_bind, hcls, if_neg (by rw [hsib]; simp)]
    rfl

/-- Witness for C6: `IMG001.JPG` with `IMG001.CR2` in the file set is
promoted to a `..._thmb` bucket. -/
theorem C6_witness :
    ∃ d m, process_metadata "20241210".data
        { sourceFile := some "IMG001.JPG".data,
          createDate := some "2024:12:10 14:30:05".data,
          make := some "Canon".data, model := some "Canon EOS R5".data }
        ["IMG001.CR2".data, "IMG001.JPG".data] =
        some (.thumbImage, d, m) ∧ lastSeg d = thmbDir :=
  (C6_thumbnail_promotion "20241210".data
    { sourceFile := some "IMG001.JPG".data,
      createDate := some "2024:12:10 14:30:05".data,
      make := some "Canon".data, model := some "Canon EOS R5".data }
    ["IMG001.CR2".data, "IMG001.JPG".data]
    "IMG001.JPG".data rfl (by decide)).1 (by decide)

/-- A thumbnail verdict of `_process_metadata` forces a `thmb` directory
suffix. -/
theorem process_metadata_thumb_lastSeg (fallback : Str) (md : Metadata) (files : List Str)
    (d : Str) (m : Metadata)
    (h : process_metadata fallback md files = some (.thumbImage, d, m)) :
    lastSeg d = thmbDir := by
  unfold process_metadata at h
  cases hsf : md.sourceFile with
  | none => rw [hsf] at h; exact absurd h (by simp)
  | some fileName =>
    rw [hsf, Option.some_bind, Option.map_eq_some'] at h
    obtain ⟨⟨t, e⟩, hp, hfp⟩ := h
    simp only [Prod.mk.injEq] at hfp
    obtain ⟨hty, hd, _⟩ := hfp
    subst hty
    have he := classifyExt_thumb_inv _ _ _ e hp
    rw [← hd, he.1, dirKeyOf_lastSeg _ _ thmbDir (by decide)]
    decide

/-- Claim C9: a `jpg` promoted to Thumbnail is renamed with on-disk
extension `thmb` — the generated name ends in `.thmb`, never in `.jpg`,
whatever bucket position the record ends up in. -/
theorem C9_thumbnail_rename_extension (fallback : Str) (md : Metadata) (files : List Str)
    (d : Str) (m : Metadata)
    (hthumb : process_metadata fallback md files = some (.thumbImage, d, m)) :
    ∀ project objs op, op ∈ renameOpsForDir project d objs →
      (∃ pre, op.newName = pre ++ '.' :: thmbDir) ∧
        (¬ ∃ pre, op.newName = pre ++ '.' :: thmbExt) := by
  intro project objs op hop
  have hext : lastSeg d = thmbDir :=
    process_metadata_thumb_lastSeg fallback md files d m hthumb
  unfold renameOpsForDir at hop
  rw [List.mem_map] at hop
  obtain ⟨p, _, hpe⟩ := hop
  have hnm : op.newName = pyLower (('.' :: '/' :: d ++ '/' :: p.2.createDate.getD [] ++
      '_' :: project ++ '_' :: pad3 p.1) ++ '.' :: lastSeg d) := by
    rw [← hpe]
    show pyFileName d (p.2.createDate.getD []) project p.1 (lastSeg d) = _
    unfold pyFileName
    congr 1
  rw [hext] at hnm
  rw [pyLower_append_dot] at hnm
  have hthmb : pyLower thmbDir = thmbDir := by decide
  rw [hthmb] at hnm
  constructor
  · exact ⟨_, hnm⟩
  · rintro ⟨pre', hpe'⟩
    have h1 : op.newName.reverse =
        'b' :: 'm' :: 'h' :: 't' :: '.' ::
          (pyLower ('.' :: '/' :: d ++ '/' :: p.2.createDate.getD [] ++
            '_' :: project ++ '_' :: pad3 p.1)).reverse := by
      rw [hnm, List.reverse_append]
      rfl
    have h2 : op.newName.reverse = 'g' :: 'p' :: 'j' :: '.' :: pre'.reverse := by
      rw [hpe', List.reverse_append]
      rfl
    rw [h1] at h2
    exact absurd h2 (by simp)

/-- The concrete thumbnail record used by the C9 witness. -/
def mdThumb : Metadata :=
  { sourceFile := some "IMG001.JPG".data, createDate := some "2024:12:10 14:30:05".data
    make := some "Canon".data, model := some "Canon EOS R5".data }

/-- Its classified form. -/
def mdThumbOut : Metadata :=
  { sourceFile := some "IMG001.JPG".data, createDate := some "20241210-143005".data
    make := some "Canon".data, model := some "EOSR5".data }

/-- The rename operation the pipeline schedules for it. -/
def opThumb : RenameOp :=
  { oldName := "IMG001.JPG".data
    newName := pyFileName "canon_eosr5_thmb".data "20241210-143005".data "trip".data 1
      (lastSeg "canon_eosr5_thmb".data)
    seq := 1 }

/-- Witness for C9 at the concrete thumbnail record. -/
theorem C9_witness :
    ∃ pre, opThumb.newName = pre ++ '.' :: thmbDir :=
  (C9_thumbnail_rename_extension "20241210".data mdThumb
    ["IMG001.CR2".data, "IMG001.JPG".data] "canon_eosr5_thmb".data mdThumbOut
    (by decide) "trip".data [mdThumbOut] opThumb (by decide)).1

/-! ## Claim C5 — EXIF date normalization -/

theorem digit_not_colon (c : Char) (h : isDigitB c = true) : (c = ':') = False := by
  simp only [eq_iff_iff, iff_false]
  exact digit_char_cases c ':' h (by decide)

theorem digit_not_space (c : Char) (h : isDigitB c = true) : (c = ' ') = False := by
  simp only [eq_iff_iff, iff_false]
  exact digit_char_cases c ' ' h (by decide)

theorem digit_not_ws (c : Char) (h : isDigitB c = true) : isPyWs c = false := by
  have := digit_toNat_range c h
  unfold isPyWs
  have h32 : (c = ' ') = False := digit_not_space c h
  simp only [h32]
  have h9 : c ≠ '\t' := by
    intro he; subst he; revert this; decide
  have h10 : c ≠ '\n' := by
    intro he; subst he; revert this; decide
  have h13 : c ≠ '\r' := by
    intro he; subst he; revert this; decide
  have h11 : c ≠ '\x0b' := by
    intro he; subst he; revert this; decide
  have h12 : c ≠ '\x0c' := by
    intro he; subst he; revert this; decide
  simp [h9, h10, h13, h11, h12]

/-- A maximal digit run followed by a non-digit splits exactly there. -/
theorem digitRun_exact (a : Str) (c : Char) (b : Str)
    (ha : ∀ x ∈ a, isDigitB x = true) (hc : isDigitB c = false) :
    digitRun (a ++ c :: b) = (a, c :: b) := by
  unfold digitRun
  rw [takeWhile_append_break _ _ _ _ hc, takeWhile_of_all _ _ ha,
    dropWhile_append_of_all _ _ _ ha]
  simp [List.dropWhile, hc]

/-- A digit run with nothing after it consumes the whole string. -/
theorem digitRun_all (a : Str) (ha : ∀ x ∈ a, isDigitB x = true) :
    digitRun a = (a, []) := by
  unfold digitRun
  rw [takeWhile_of_all _ _ ha]
  have : a.dropWhile isDigitB = [] := by
    induction a with
    | nil => rfl
    | cons x xs ih =>
      rw [List.dropWhile_cons, if_pos (ha x (by simp))]
      exact ih (fun y hy => ha y (by simp [hy]))
  rw [this]

theorem filter_colon_digits (a : Str) (ha : ∀ x ∈ a, isDigitB x = true) :
    a.filter (fun c => c ≠ ':') = a := by
  induction a with
  | nil => rfl
  | cons x xs ih =>
    rw [List.filter_cons, if_pos (by simp [digit_not_colon x (ha x (by simp))])]
    rw [ih (fun y hy => ha y (by simp [hy]))]

theorem map_dash_digits (a : Str) (ha : ∀ x ∈ a, isDigitB x = true) :
    a.map (fun c => if c = ' ' then '-' else c) = a := by
  apply map_fix
  intro c hc
  rw [if_neg]
  intro he
  rw [digit_not_space c (ha c hc)] at he
  exact he

/-- The strptime model accepts a fully zero-padded timestamp with valid
calendar fields. -/
theorem strptime_exact_accepts (y mo dd h mi s : Str)
    (hly : y.length = 4) (hlmo : mo.length = 2) (hldd : dd.length = 2)
    (hlh : h.length = 2) (hlmi : mi.length = 2) (hls : s.length = 2)
    (hdy : ∀ c ∈ y, isDigitB c = true) (hdmo : ∀ c ∈ mo, isDigitB c = true)
    (hddd : ∀ c ∈ dd, isDigitB c = true) (hdh : ∀ c ∈ h, isDigitB c = true)
    (hdmi : ∀ c ∈ mi, isDigitB c = true) (hds : ∀ c ∈ s, isDigitB c = true)
    (hvy : 1 ≤ strVal y) (hvmo1 : 1 ≤ strVal mo) (hvmo2 : strVal mo ≤ 12)
    (hvdd1 : 1 ≤ strVal dd) (hvdd2 : strVal dd ≤ daysInMonth (strVal y) (strVal mo))
    (hvh : strVal h ≤ 23) (hvmi : strVal mi ≤ 59) (hvs : strVal s ≤ 59) :
    strptimeYmdHms (y ++ ':' :: (mo ++ ':' :: (dd ++ ' ' :: (h ++ ':' :: (mi ++ ':' :: s))))) =
      true := by
  obtain ⟨hc, ht, rfl⟩ : ∃ c t, h = c :: t := by
    cases h with
    | nil => simp at hlh
    | cons c t => exact ⟨c, t, rfl⟩
  have hhc : isDigitB hc = true := hdh hc (by simp)
  have hws2 : isPyWs hc = false := digit_not_ws hc hhc
  have e1 : digitRun (y ++ ':' ::
      (mo ++ ':' :: (dd ++ ' ' :: (hc :: ht ++ ':' :: (mi ++ ':' :: s))))) =
      (y, ':' :: (mo ++ ':' :: (dd ++ ' ' :: (hc :: ht ++ ':' :: (mi ++ ':' :: s))))) :=
    digitRun_exact _ _ _ hdy (by decide)
  have e2 : digitRun (mo ++ ':' :: (dd ++ ' ' :: (hc :: ht ++ ':' :: (mi ++ ':' :: s)))) =
      (mo, ':' :: (dd ++ ' ' :: (hc :: ht ++ ':' :: (mi ++ ':' :: s)))) :=
    digitRun_exact _ _ _ hdmo (by decide)
  have e3 : digitRun (dd ++ ' ' :: (hc :: ht ++ ':' :: (mi ++ ':' :: s))) =
      (dd, ' ' :: (hc :: ht ++ ':' :: (mi ++ ':' :: s))) :=
    digitRun_exact _ _ _ hddd (by decide)
  have e4 : (' ' :: (hc :: ht ++ ':' :: (mi ++ ':' :: s))).takeWhile isPyWs = [' '] := by
    rw [List.takeWhile_cons, if_pos (by decide)]
    rw [show (hc :: ht ++ ':' :: (mi ++ ':' :: s)) =
      hc :: (ht ++ ':' :: (mi ++ ':' :: s)) from rfl]
    rw [List.takeWhile_cons, if_neg (by rw [hws2]; simp)]
  have e5 : (' ' :: (hc :: ht ++ ':' :: (mi ++ ':' :: s))).dropWhile isPyWs =
      hc :: ht ++ ':' :: (mi ++ ':' :: s) := by
    rw [List.dropWhile_cons, if_pos (by decide)]
    rw [show (hc :: ht ++ ':' :: (mi ++ ':' :: s)) =
      hc :: (ht ++ ':' :: (mi ++ ':' :: s)) from rfl]
    rw [List.dropWhile_cons, if_neg (by rw [hws2]; simp)]
  have e6 : digitRun (hc :: ht ++ ':' :: (mi ++ ':' :: s)) =
      (hc :: ht, ':' :: (mi ++ ':' :: s)) :=
    digitRun_exact (hc :: ht) ':' _ hdh (by decide)
  have e7 : digitRun (mi ++ ':' :: s) = (mi, ':' :: s) :=
    digitRun_exact _ _ _ hdmi (by decide)
  have e8 : digitRun s = (s, []) := digitRun_all s hds
  unfold strptimeYmdHms
  simp only [e1, e2, e3, e4, e5, e6, e7, e8]
  simp [hly, hlmo, hldd, hlh, hlmi, hls, hvy, hvmo1, hvmo2, hvdd1, hvdd2, hvh, hvmi, hvs]

/-- The claim's "exact pattern `YYYY:MM:DD HH:MM:SS`" (spec wording): four
digits, colon, two digits, colon, two digits, single space, two digits,
colon, two digits, colon, two digits, with valid calendar/time values. -/
def exactYmdHms (s : Str) : Bool :=
  s.length = 19 &&
    (s.take 4).all isDigitB && (s.drop 4).take 1 = [':'] &&
    ((s.drop 5).take 2).all isDigitB && (s.drop 7).take 1 = [':'] &&
    ((s.drop 8).take 2).all isDigitB && (s.drop 10).take 1 = [' '] &&
    ((s.drop 11).take 2).all isDigitB && (s.drop 13).take 1 = [':'] &&
    ((s.drop 14).take 2).all isDigitB && (s.drop 16).take 1 = [':'] &&
    (s.drop 17).all isDigitB &&
    (let y := strVal (s.take 4)
     let mo := strVal ((s.drop 5).take 2)
     let dd := strVal ((s.drop 8).take 2)
     let hh := strVal ((s.drop 11).take 2)
     let mi := strVal ((s.drop 14).take 2)
     let ss := strVal (s.drop 17)
     1 ≤ y && 1 ≤ mo && mo ≤ 12 && 1 ≤ dd && dd ≤ daysInMonth y mo &&
       hh ≤ 23 && mi ≤ 59 && ss ≤ 59)

/-- Claim C5 (amended): a createDate in the fully zero-padded
`YYYY:MM:DD HH:MM:SS` form with valid calendar/time fields normalizes to
`YYYYMMDD-HHMMSS`; a createDate that Python's `strptime` rejects (and an
absent one) falls back to the directory date.  (The correction: `strptime`
also accepts 1-2 digit month/day/hour/minute/second fields and runs of
whitespace, and such dates are reformatted by deleting colons and
replacing spaces — they do **not** fall back, contrary to the claim's
"every other case" branch; see the counterexample.) -/
theorem C5_date_normalization (fallback : Str) :
    (∀ y mo dd h mi s : Str,
      y.length = 4 → mo.length = 2 → dd.length = 2 → h.length = 2 → mi.length = 2 →
      s.length = 2 →
      (∀ c ∈ y, isDigitB c = true) → (∀ c ∈ mo, isDigitB c = true) →
      (∀ c ∈ dd, isDigitB c = true) → (∀ c ∈ h, isDigitB c = true) →
      (∀ c ∈ mi, isDigitB c = true) → (∀ c ∈ s, isDigitB c = true) →
      1 ≤ strVal y → 1 ≤ strVal mo → strVal mo ≤ 12 →
      1 ≤ strVal dd → strVal dd ≤ daysInMonth (strVal y) (strVal mo) →
      strVal h ≤ 23 → strVal mi ≤ 59 → strVal s ≤ 59 →
      normalizeCreateDate fallback
        (some (y ++ ':' :: (mo ++ ':' :: (dd ++ ' ' :: (h ++ ':' :: (mi ++ ':' :: s)))))) =
        y ++ mo ++ dd ++ '-' :: (h ++ mi ++ s)) ∧
      (∀ d : Str, strptimeYmdHms d = false →
        normalizeCreateDate fallback (some d) = fallback) ∧
      normalizeCreateDate fallback none = fallback := by
  refine ⟨?_, ?_, rfl⟩
  · intro y mo dd h mi s hly hlmo hldd hlh hlmi hls hdy hdmo hddd hdh hdmi hds
      hvy hvmo1 hvmo2 hvdd1 hvdd2 hvh hvmi hvs
    have hlen : (y ++ ':' :: (mo ++ ':' :: (dd ++ ' ' ::
        (h ++ ':' :: (mi ++ ':' :: s))))).length = 19 := by
      simp [hly, hlmo, hldd, hlh, hlmi, hls]
    have hne1 : (y ++ ':' :: (mo ++ ':' :: (dd ++ ' ' ::
        (h ++ ':' :: (mi ++ ':' :: s))))) ≠ [] := by
      intro he
      rw [he] at hlen
      simp at hlen
    have hne2 : (y ++ ':' :: (mo ++ ':' :: (dd ++ ' ' ::
        (h ++ ':' :: (mi ++ ':' :: s))))) ≠ unknownStr := by
      intro he
      rw [he] at hlen
      simp [unknownStr] at hlen
    simp only [normalizeCreateDate]
    rw [if_neg (by simp [hne1, hne2])]
    rw [if_pos (strptime_exact_accepts y mo dd h mi s hly hlmo hldd hlh hlmi hls
      hdy hdmo hddd hdh hdmi hds hvy hvmo1 hvmo2 hvdd1 hvdd2 hvh hvmi hvs)]
    rw [List.filter_append, filter_colon_digits y hdy, List.filter_cons,
      if_neg (by decide), List.filter_append, filter_colon_digits mo hdmo,
      List.filter_cons, if_neg (by decide), List.filter_append,
      filter_colon_digits dd hddd, List.filter_cons, if_pos (by decide),
      List.filter_append, filter_colon_digits h hdh, List.filter_cons,
      if_neg (by decide), List.filter_append, filter_colon_digits mi hdmi,
      List.filter_cons, if_neg (by decide), filter_colon_digits s hds]
    rw [List.map_append, map_dash_digits y hdy, List.map_append,
      map_dash_digits mo hdmo, List.map_append, map_dash_digits dd hddd,
      List.map_cons, if_pos rfl, List.map_append, map_dash_digits h hdh,
      List.map_append, map_dash_digits mi hdmi, map_dash_digits s hds]
    simp [List.append_assoc]
  · intro d hne
    simp only [normalizeCreateDate]
    by_cases h0 : (d = [] || d = unknownStr : Bool) = true
    · rw [if_pos h0]
    · rw [if_neg h0, if_neg (by rw [hne]; simp)]

/-- Witness for C5, applying the exact-pattern branch at the spec's own
example `"2024:12:10 14:30:05"` (and exercising the fallback branch on
`"invalid"`). -/
theorem C5_witness :
    normalizeCreateDate "20241210".data (some "2024:12:10 14:30:05".data) =
        "20241210-143005".data ∧
      normalizeCreateDate "20241210".data (some "invalid".data) = "20241210".data := by
  constructor
  · have h := (C5_date_normalization "20241210".data).1 "2024".data "12".data "10".data
      "14".data "30".data "05".data rfl rfl rfl rfl rfl rfl
      (by decide) (by decide) (by decide) (by decide) (by decide) (by decide)
      (by decide) (by decide) (by decide) (by decide) (by decide) (by decide)
      (by decide) (by decide)
    exact h
  · exact (C5_date_normalization "20241210".data).2.1 "invalid".data (by decide)

/-- Claim C5 (counterexample): `"2024:1:2 3:4:5"` is not in the exact
`YYYY:MM:DD HH:MM:SS` pattern, so by the claim it should normalize to the
fallback date — but CPython's `strptime` accepts 1-digit fields, and the
code reformats it to `"202412-345"`. -/
theorem C5_counterexample :
    exactYmdHms "2024:1:2 3:4:5".data = false ∧
      strptimeYmdHms "2024:1:2 3:4:5".data = true ∧
      normalizeCreateDate "20241210".data (some "2024:1:2 3:4:5".data) =
        "202412-345".data ∧
      "202412-345".data ≠ "20241210".data := by
  refine ⟨by decide, by decide, by decide, by decide⟩

/-! ## Claim C7 — fatal conditions of the pipeline entry point -/

/-- Claim C7: the pipeline raises exactly on the two fatal conditions —
`ValidationError` iff the directory base name fails validation, and the
no-classifiable-files `ValueError` iff validation passed, the filtered
candidate list is nonempty and the accumulated bucket map is empty — and
it returns normally on the no-op case (empty candidate list after
exclusion filtering).  External collaborators (metadata provider,
converter) are modelled total, as their failures are outside this claim. -/
theorem C7_fatal_conditions (env : PyEnv) (opDir cwd0 : Str) :
    ((process_images_reactive env opDir cwd0).res = .error .validationError ↔
      validate_image_dir (pipelineBase env opDir cwd0) = false) ∧
      ((process_images_reactive env opDir cwd0).res = .error .noFilesError ↔
        (validate_image_dir (pipelineBase env opDir cwd0) = true ∧
          filteredOf env ≠ [] ∧
          collectionOf env (pipelineBase env opDir cwd0) = [])) ∧
      (validate_image_dir (pipelineBase env opDir cwd0) = true → filteredOf env = [] →
        (process_images_reactive env opDir cwd0).res = .ok ()) := by
  have hres : (process_images_reactive env opDir cwd0).res =
      (if validate_image_dir (pipelineBase env opDir cwd0) = false then
        Except.error PErr.validationError
      else if (filteredOf env).isEmpty then Except.ok ()
      else if (collectionOf env (pipelineBase env opDir cwd0)).isEmpty then
        Except.error PErr.noFilesError
      else Except.ok ()) := by
    by_cases hop : opDir = ['.']
    · subst hop
      by_cases hv : validate_image_dir (pipelineBase env ['.'] cwd0) = true
      · by_cases hf : filteredOf env = []
        · simp [process_images_reactive, pipelineBody, hv, hf, List.isEmpty_iff]
        · by_cases hcol : collectionOf env (pipelineBase env ['.'] cwd0) = []
          · simp [process_images_reactive, pipelineBody, hv, hf, hcol, List.isEmpty_iff]
          · simp [process_images_reactive, pipelineBody, hv, hf, hcol, List.isEmpty_iff]
      · rw [Bool.not_eq_true] at hv
        simp [process_images_reactive, hv]
    · by_cases hv : validate_image_dir (pipelineBase env opDir cwd0) = true
      · by_cases hf : filteredOf env = []
        · simp [process_images_reactive, pipelineBody, hv, hop, hf, List.isEmpty_iff]
        · by_cases hcol : collectionOf env (pipelineBase env opDir cwd0) = []
          · simp [process_images_reactive, pipelineBody, hv, hop, hf, hcol, List.isEmpty_iff]
          · simp [process_images_reactive, pipelineBody, hv, hop, hf, hcol, List.isEmpty_iff]
      · rw [Bool.not_eq_true] at hv
        simp [process_images_reactive, hv]
  refine ⟨?_, ?_, ?_⟩
  · rw [hres]
    split_ifs with h1 h2 h3 <;> simp_all
  · rw [hres]
    split_ifs with h1 h2 h3 <;> simp_all [List.isEmpty_iff]
  · intro hv hf
    rw [hres, if_neg (by simp [hv]), if_pos (by simp [List.isEmpty_iff, hf])]

/-- Witness for C7's no-op branch: a directory whose only entry is
excluded (`Thumbs.db`) returns normally. -/
theorem C7_witness :
    (process_images_reactive { envW with listFiles := ["Thumbs.db".data] }
        "20241210_trip".data "/home".data).res = Except.ok () :=
  (C7_fatal_conditions { envW with listFiles := ["Thumbs.db".data] }
    "20241210_trip".data "/home".data).2.2 (by decide) (by decide)

/-! ## Claim C3 — directory-name validation -/

/-- The claim's reading of validation: the base name matches
`^(\d{8}(-\d{8})?)_[\w-]+$` with valid calendar date(s), and in the
range form the start date is numerically at most the end date. -/
def specDirValid (s : Str) : Prop :=
  (∃ d tail : Str, s = d ++ '_' :: tail ∧ d.length = 8 ∧
    (∀ c ∈ d, isDigitB c = true) ∧ tailOkB tail = true ∧ validYmd8 d = true) ∨
  (∃ d1 d2 tail : Str, s = d1 ++ '-' :: (d2 ++ '_' :: tail) ∧
    d1.length = 8 ∧ d2.length = 8 ∧
    (∀ c ∈ d1, isDigitB c = true) ∧ (∀ c ∈ d2, isDigitB c = true) ∧
    tailOkB tail = true ∧ validYmd8 d1 = true ∧ validYmd8 d2 = true ∧
    strVal d1 ≤ strVal d2)

theorem parseDirName_single_inv (s d1 tail : Str)
    (h : parseDirName s = some (d1, none, tail)) :
    s = d1 ++ '_' :: tail ∧ d1.length = 8 ∧ (∀ c ∈ d1, isDigitB c = true) ∧
      tailOkB tail = true := by
  unfold parseDirName at h
  by_cases h1 : ((s.take 8).length = 8 && (s.take 8).all isDigitB : Bool) = true
  rotate_left
  · rw [if_neg h1] at h; exact absurd h (by simp)
  rw [if_pos h1] at h
  by_cases h2 : ((s.drop 8).take 1 = ['-'] : Bool) = true
  · rw [if_pos h2] at h
    by_cases h3 : (((s.drop 9).take 8).length = 8 && ((s.drop 9).take 8).all isDigitB :
        Bool) = true
    · rw [if_pos h3] at h
      by_cases h4 : ((s.drop 17).take 1 = ['_'] : Bool) = true
      · rw [if_pos h4] at h
        by_cases h5 : tailOkB (s.drop 18) = true
        · rw [if_pos h5] at h; exact absurd h (by simp)
        · rw [if_neg h5] at h; exact absurd h (by simp)
      · rw [if_neg h4] at h; exact absurd h (by simp)
    · rw [if_neg h3] at h; exact absurd h (by simp)
  · rw [if_neg h2] at h
    by_cases h4 : ((s.drop 8).take 1 = ['_'] : Bool) = true
    rotate_left
    · rw [if_neg h4] at h; exact absurd h (by simp)
    rw [if_pos h4] at h
    by_cases h5 : tailOkB (s.drop 9) = true
    rotate_left
    · rw [if_neg h5] at h; exact absurd h (by simp)
    rw [if_pos h5] at h
    simp only [Option.some.injEq, Prod.mk.injEq] at h
    obtain ⟨hd1, -, htail⟩ := h
    rw [Bool.and_eq_true, decide_eq_true_iff, List.all_eq_true] at h1
    rw [decide_eq_true_iff] at h4
    have hdrop8 : s.drop 8 = '_' :: s.drop 9 := by
      have ht := List.take_append_drop 1 (s.drop 8)
      rw [h4] at ht
      rw [← ht, List.drop_drop]
      rfl
    refine ⟨?_, ?_, ?_, ?_⟩
    · conv_lhs => rw [← List.take_append_drop 8 s]
      rw [hdrop8, hd1, htail]
    · rw [← hd1]; exact h1.1
    · rw [← hd1]; exact h1.2
    · rw [← htail]; exact h5

theorem parseDirName_range_inv (s d1 d2 tail : Str)
    (h : parseDirName s = some (d1, some d2, tail)) :
    s = d1 ++ '-' :: (d2 ++ '_' :: tail) ∧ d1.length = 8 ∧ d2.length = 8 ∧
      (∀ c ∈ d1, isDigitB c = true) ∧ (∀ c ∈ d2, isDigitB c = true) ∧
      tailOkB tail = true := by
  unfold parseDirName at h
  by_cases h1 : ((s.take 8).length = 8 && (s.take 8).all isDigitB : Bool) = true
  rotate_left
  · rw [if_neg h1] at h; exact absurd h (by simp)
  rw [if_pos h1] at h
  by_cases h2 : ((s.drop 8).take 1 = ['-'] : Bool) = true
  rotate_left
  · rw [if_neg h2] at h
    by_cases h4 : ((s.drop 8).take 1 = ['_'] : Bool) = true
    · rw [if_pos h4] at h
      by_cases h5 : tailOkB (s.drop 9) = true
      · rw [if_pos h5] at h; exact absurd h (by simp)
      · rw [if_neg h5] at h; exact absurd h (by simp)
    · rw [if_neg h4] at h; exact absurd h (by simp)
  rw [if_pos h2] at h
  by_cases h3 : (((s.drop 9).take 8).length = 8 && ((s.drop 9).take 8).all isDigitB :
      Bool) = true
  rotate_left
  · rw [if_neg h3] at h; exact absurd h (by simp)
  rw [if_pos h3] at h
  by_cases h4 : ((s.drop 17).take 1 = ['_'] : Bool) = true
  rotate_left
  · rw [if_neg h4] at h; exact absurd h (by simp)
  rw [if_pos h4] at h
  by_cases h5 : tailOkB (s.drop 18) = true
  rotate_left
  · rw [if_neg h5] at h; exact absurd h (by simp)
  rw [if_pos h5] at h
  simp only [Option.some.injEq, Prod.mk.injEq] at h
  obtain ⟨hd1, hd2, htail⟩ := h
  rw [Bool.and_eq_true, decide_eq_true_iff, List.all_eq_true] at h1
  rw [Bool.and_eq_true, decide_eq_true_iff, List.all_eq_true] at h3
  rw [decide_eq_true_iff] at h2
  rw [decide_eq_true_iff] at h4
  have hdrop8 : s.drop 8 = '-' :: s.drop 9 := by
    have ht := List.take_append_drop 1 (s.drop 8)
    rw [h2] at ht
    rw [← ht, List.drop_drop]
    rfl
  have hdrop17 : s.drop 17 = '_' :: s.drop 18 := by
    have ht := List.take_append_drop 1 (s.drop 17)
    rw [h4] at ht
    rw [← ht, List.drop_drop]
    rfl
  have hdrop9 : s.drop 9 = (s.drop 9).take 8 ++ '_' :: s.drop 18 := by
    conv_lhs => rw [← List.take_append_drop 8 (s.drop 9)]
    rw [List.drop_drop]
    show _ ++ s.drop 17 = _ ++ '_' :: s.drop 18
    rw [hdrop17]
  refine ⟨?_, ?_, ?_, ?_, ?_, ?_⟩
  · conv_lhs => rw [← List.take_append_drop 8 s]
    rw [hdrop8, hd1, ← htail, ← hd2, ← hdrop9]
  · rw [← hd1]; exact h1.1
  · rw [← hd2]; exact h3.1
  · rw [← hd1]; exact h1.2
  · rw [← hd2]; exact h3.2
  · rw [← htail]; exact h5

theorem parseDirName_single_complete (d tail : Str) (hd8 : d.length = 8)
    (hdd : ∀ c ∈ d, isDigitB c = true) (ht : tailOkB tail = true) :
    parseDirName (d ++ '_' :: tail) = some (d, none, tail) := by
  have htake : (d ++ '_' :: tail).take 8 = d := List.take_left' hd8
  have hdrop : (d ++ '_' :: tail).drop 8 = '_' :: tail := List.drop_left' hd8
  have hdrop9 : (d ++ '_' :: tail).drop 9 = tail := by
    have hsh : d ++ '_' :: tail = (d ++ ['_']) ++ tail := by simp
    rw [hsh]
    exact List.drop_left' (by simp [hd8])
  have hc1 : ((d.length = 8 : Bool) && d.all isDigitB) = true := by
    rw [Bool.and_eq_true, decide_eq_true_iff, List.all_eq_true]
    exact ⟨hd8, hdd⟩
  unfold parseDirName
  rw [htake, hdrop, hdrop9]
  rw [if_pos hc1, if_neg (by simp), if_pos (by simp), if_pos ht]

theorem parseDirName_range_complete (d1 d2 tail : Str) (hd18 : d1.length = 8)
    (hd28 : d2.length = 8) (hdd1 : ∀ c ∈ d1, isDigitB c = true)
    (hdd2 : ∀ c ∈ d2, isDigitB c = true) (ht : tailOkB tail = true) :
    parseDirName (d1 ++ '-' :: (d2 ++ '_' :: tail)) = some (d1, some d2, tail) := by
  have htake : (d1 ++ '-' :: (d2 ++ '_' :: tail)).take 8 = d1 := List.take_left' hd18
  have hdrop : (d1 ++ '-' :: (d2 ++ '_' :: tail)).drop 8 = '-' :: (d2 ++ '_' :: tail) :=
    List.drop_left' hd18
  have hdrop9 : (d1 ++ '-' :: (d2 ++ '_' :: tail)).drop 9 = d2 ++ '_' :: tail := by
    have hsh : d1 ++ '-' :: (d2 ++ '_' :: tail) = (d1 ++ ['-']) ++ (d2 ++ '_' :: tail) := by
      simp
    rw [hsh]
    exact List.drop_left' (by simp [hd18])
  have hdrop17 : (d1 ++ '-' :: (d2 ++ '_' :: tail)).drop 17 = '_' :: tail := by
    have hsh : d1 ++ '-' :: (d2 ++ '_' :: tail) = ((d1 ++ ['-']) ++ d2) ++ '_' :: tail := by
      simp
    rw [hsh]
    exact List.drop_left' (by simp [hd18, hd28])
  have hdrop18 : (d1 ++ '-' :: (d2 ++ '_' :: tail)).drop 18 = tail := by
    have hsh : d1 ++ '-' :: (d2 ++ '_' :: tail) =
        (((d1 ++ ['-']) ++ d2) ++ ['_']) ++ tail := by simp
    rw [hsh]
    exact List.drop_left' (by simp [hd18, hd28])
  have htk2 : (d2 ++ '_' :: tail).take 8 = d2 := List.take_left' hd28
  have hc1 : ((d1.length = 8 : Bool) && d1.all isDigitB) = true := by
    rw [Bool.and_eq_true, decide_eq_true_iff, List.all_eq_true]
    exact ⟨hd18, hdd1⟩
  have hc2 : ((d2.length = 8 : Bool) && d2.all isDigitB) = true := by
    rw [Bool.and_eq_true, decide_eq_true_iff, List.all_eq_true]
    exact ⟨hd28, hdd2⟩
  unfold parseDirName
  rw [htake, hdrop, hdrop9, hdrop17, hdrop18, htk2]
  rw [if_pos hc1, if_pos (by simp), if_pos hc2, if_pos (by simp), if_pos ht]

/-- Claim C3: a directory base name passes `_validate_image_dir` exactly
when it matches `^(\d{8}(-\d{8})?)_[\w-]+$` with valid calendar date(s)
and, in the range form, start ≤ end (numerically — the source's Python
string comparison agrees with numeric order on 8-digit strings); a failed
validation raises before any other I/O of the pipeline (empty trace,
unchanged working directory); and the four example names behave as the
spec states. -/
theorem C3_directory_validation :
    (∀ name : Str, validate_image_dir name = true ↔ specDirValid name) ∧
      (∀ (env : PyEnv) (opDir cwd0 : Str),
        validate_image_dir (pipelineBase env opDir cwd0) = false →
          process_images_reactive env opDir cwd0 =
            { res := .error .validationError, cwd := cwd0, trace := [] }) ∧
      validate_image_dir "20241210_trip".data = true ∧
      validate_image_dir "20241231-20250101_trip".data = true ∧
      validate_image_dir "2024121_trip".data = false ∧
      validate_image_dir "20250101-20241231_trip".data = false := by
  refine ⟨?_, ?_, by decide, by decide, by decide, by decide⟩
  · intro name
    constructor
    · intro hv
      cases hp : parseDirName name with
      | none =>
        simp only [validate_image_dir, hp] at hv
        exact absurd hv (by simp)
      | some t =>
        obtain ⟨d1, od2, tail⟩ := t
        cases od2 with
        | none =>
          simp only [validate_image_dir, hp] at hv
          obtain ⟨hs, h8, hdig, htl⟩ := parseDirName_single_inv name d1 tail hp
          exact Or.inl ⟨d1, tail, hs, h8, hdig, htl, hv⟩
        | some d2 =>
          simp only [validate_image_dir, hp, Bool.and_eq_true] at hv
          obtain ⟨⟨hv1, hv2⟩, hv3⟩ := hv
          obtain ⟨hs, h18, h28, hdig1, hdig2, htl⟩ :=
            parseDirName_range_inv name d1 d2 tail hp
          have hfalse : strLtB d2 d1 = false := by
            cases hb : strLtB d2 d1 with
            | false => rfl
            | true => rw [hb] at hv3; exact absurd hv3 (by decide)
          have hle : strVal d1 ≤ strVal d2 := by
            have hiff := strLtB_iff_val d2 d1 (by rw [h28, h18]) hdig2 hdig1
            rcases Nat.lt_or_ge (strVal d2) (strVal d1) with hlt | hge
            · rw [hiff.mpr hlt] at hfalse
              exact absurd hfalse (by simp)
            · exact hge
          exact Or.inr ⟨d1, d2, tail, hs, h18, h28, hdig1, hdig2, htl, hv1, hv2, hle⟩
    · intro hs
      rcases hs with ⟨d, tail, rfl, h8, hdig, htl, hval⟩ |
        ⟨d1, d2, tail, rfl, h18, h28, hdig1, hdig2, htl, hval1, hval2, hle⟩
      · simp only [validate_image_dir, parseDirName_single_complete d tail h8 hdig htl]
        exact hval
      · simp only [validate_image_dir,
          parseDirName_range_complete d1 d2 tail h18 h28 hdig1 hdig2 htl,
          Bool.and_eq_true]
        refine ⟨⟨hval1, hval2⟩, ?_⟩
        have hiff := strLtB_iff_val d2 d1 (by rw [h28, h18]) hdig2 hdig1
        cases hb : strLtB d2 d1 with
        | false => rfl
        | true =>
          have := hiff.mp hb
          omega
  · intro env opDir cwd0 hv
    unfold process_images_reactive
    rw [if_pos (by rw [hv]; rfl)]

/-- Witness for C3 at a concrete invalid directory name: the run fails
with the validation error, leaves the working directory unchanged and
performs no I/O. -/
theorem C3_witness :
    process_images_reactive envW "bad name".data "/home".data =
      { res := .error .validationError, cwd := "/home".data, trace := [] } :=
  C3_directory_validation.2.1 envW "bad name".data "/home".data (by decide)

end Eir
